import Mathlib

/-!
Shallow embedding of the `crawl-news` repository (src/app.py, src/parsers.py,
src/scripts/cluster_news.py) for checking its natural-language specification.

Conventions of the embedding:
* Python `str` is Lean `String`; Python string comparison is code-point
  lexicographic, embedded below as `pyCharsLt` over `List Char`.
* Machine words of SHA-1 are `Nat` reduced mod `2 ^ 32`.
* Aware `datetime` instants are seconds since the Unix epoch (`Int`), at
  second resolution (the claims under check do not involve sub-second data).
  `Asia/Ho_Chi_Minh` is a fixed `+07:00` offset (the zone has had no DST and a
  constant offset since 1975, which covers every instant this system handles).
* Fallible Python calls are `Option`-valued; external collaborators
  (feedparser, dateutil, sklearn vectorization, the LLM client) enter as
  explicit parameters holding their results.
-/

set_option maxRecDepth 10000

/-! ### Python string primitives (app.py / parsers.py idioms) -/

/-- Python `a or b` for strings: `a` when non-empty, else `b`. -/
def pyOr (a b : String) : String := if a = "" then b else a

/-- Whitespace test used by Python `str.strip` (ASCII whitespace suffices for
the feed data handled here). -/
def pyIsSpace (c : Char) : Bool :=
  c = ' ' || c = '\t' || c = '\n' || c = '\r' || c = Char.ofNat 11 || c = Char.ofNat 12

/-- Python `str.strip()`. -/
def pyStrip (s : String) : String :=
  ⟨((s.data.dropWhile pyIsSpace).reverse.dropWhile pyIsSpace).reverse⟩

/-- Python `<` on strings: lexicographic comparison of code points. -/
def pyCharsLt : List Char → List Char → Bool
  | [], [] => false
  | [], _ :: _ => true
  | _ :: _, [] => false
  | a :: as, b :: bs =>
    if a.toNat < b.toNat then true
    else if b.toNat < a.toNat then false
    else pyCharsLt as bs

/-- Python `<=` on strings. -/
def pyStrLe (a b : String) : Bool := ! pyCharsLt b.data a.data

/-! ### SHA-1 (hashlib.sha1, app.py line 70-71)

A faithful implementation of FIPS 180-1 SHA-1 over the UTF-8 bytes of the
input string, producing the lowercase hex digest `hashlib.sha1(s.encode("utf-8")).hexdigest()`. -/

/-- `2 ^ 32`, the word modulus of SHA-1. -/
def M32 : Nat := 4294967296

/-- Rotate a 32-bit word left by `k` bits. -/
def rotl (k n : Nat) : Nat := (n * 2 ^ k + n / 2 ^ (32 - k)) % M32

/-- UTF-8 encoding of one code point (RFC 3629). -/
def utf8Char (c : Char) : List Nat :=
  let n := c.toNat
  if n < 128 then [n]
  else if n < 2048 then [192 + n / 64, 128 + n % 64]
  else if n < 65536 then [224 + n / 4096, 128 + n / 64 % 64, 128 + n % 64]
  else [240 + n / 262144, 128 + n / 4096 % 64, 128 + n / 64 % 64, 128 + n % 64]

/-- `s.encode("utf-8")` as a list of byte values. -/
def utf8Bytes (s : String) : List Nat := (s.data.map utf8Char).flatten

/-- SHA-1 padding: append `0x80`, zero bytes to 56 mod 64, then the 64-bit
big-endian bit length. -/
def sha1Pad (m : List Nat) : List Nat :=
  let r := m.length % 64
  let zeros := (119 - r) % 64
  m ++ [128] ++ List.replicate zeros 0 ++ beBytes 8 (m.length * 8)
where
  /-- `k`-byte big-endian representation of `n`. -/
  beBytes : Nat → Nat → List Nat
    | 0, _ => []
    | k + 1, n => beBytes k (n / 256) ++ [n % 256]

/-- Split a byte list into 64-byte chunks (fuel-driven so the kernel can
evaluate it). -/
def chunk64 : Nat → List Nat → List (List Nat)
  | 0, _ => []
  | _ + 1, [] => []
  | fuel + 1, l => l.take 64 :: chunk64 fuel (l.drop 64)

/-- Big-endian 32-bit words from bytes. -/
def bytesToWords : List Nat → List Nat
  | b0 :: b1 :: b2 :: b3 :: rest =>
    (((b0 * 256 + b1) * 256 + b2) * 256 + b3) :: bytesToWords rest
  | _ => []

/-- Extend 16 message words to the 80-word SHA-1 schedule. -/
def sha1Schedule (ws : List Nat) : List Nat :=
  let rev := (List.range 64).foldl
    (fun rw _ =>
      rotl 1 ((rw.getD 2 0) ^^^ (rw.getD 7 0) ^^^ (rw.getD 13 0) ^^^ (rw.getD 15 0)) :: rw)
    ws.reverse
  rev.reverse

/-- Round function of SHA-1. -/
def sha1f (i b c d : Nat) : Nat :=
  if i < 20 then (b &&& c) ||| ((b ^^^ 4294967295) &&& d)
  else if i < 40 then b ^^^ c ^^^ d
  else if i < 60 then (b &&& c) ||| (b &&& d) ||| (c &&& d)
  else b ^^^ c ^^^ d

/-- Round constants of SHA-1. -/
def sha1k (i : Nat) : Nat :=
  if i < 20 then 1518500249
  else if i < 40 then 1859775393
  else if i < 60 then 2400959708
  else 3395469782

/-- The five 32-bit hash words. -/
structure SHA1State where
  h0 : Nat
  h1 : Nat
  h2 : Nat
  h3 : Nat
  h4 : Nat
deriving DecidableEq

/-- Initial SHA-1 state. -/
def sha1Init : SHA1State := ⟨1732584193, 4023233417, 2562383102, 271733878, 3285377520⟩

/-- Process one 80-word schedule. -/
def sha1Rounds (st : SHA1State) (w : List Nat) : SHA1State :=
  let fin := (List.range 80).foldl
    (fun (p : Nat × Nat × Nat × Nat × Nat) i =>
      let t := (rotl 5 p.1 + sha1f i p.2.1 p.2.2.1 p.2.2.2.1 + p.2.2.2.2
                  + sha1k i + w.getD i 0) % M32
      (t, p.1, rotl 30 p.2.1, p.2.2.1, p.2.2.2.1))
    (st.h0, st.h1, st.h2, st.h3, st.h4)
  ⟨(st.h0 + fin.1) % M32, (st.h1 + fin.2.1) % M32, (st.h2 + fin.2.2.1) % M32,
   (st.h3 + fin.2.2.2.1) % M32, (st.h4 + fin.2.2.2.2) % M32⟩

/-- SHA-1 of a byte string. -/
def sha1Words (m : List Nat) : SHA1State :=
  let padded := sha1Pad m
  (chunk64 padded.length padded).foldl
    (fun st ch => sha1Rounds st (sha1Schedule (bytesToWords ch))) sha1Init

/-- The sixteen lowercase hex digits. -/
def hexChars : List Char := "0123456789abcdef".data

/-- Lowercase hex digit of `n % 16`. -/
def hexDigit (n : Nat) : Char := hexChars.getD (n % 16) '0'

/-- Eight hex digits of a 32-bit word, most significant first. -/
def wordHex (w : Nat) : List Char :=
  (List.range 8).map (fun i => hexDigit (w / 16 ^ (7 - i)))

/-- `hashlib.sha1(...).hexdigest()` of a byte list. -/
def sha1hexBytes (m : List Nat) : String :=
  let st := sha1Words m
  ⟨wordHex st.h0 ++ wordHex st.h1 ++ wordHex st.h2 ++ wordHex st.h3 ++ wordHex st.h4⟩

/-- `sha1` of app.py lines 70-71: hex digest of the UTF-8 encoding. -/
def sha1hexStr (s : String) : String := sha1hexBytes (utf8Bytes s)

/-! ### Instants and local dates (app.py lines 17-18, 50-51, 112-115)

An aware UTC `datetime` is embedded as seconds since the Unix epoch.
`TIMEZONE = ZoneInfo("Asia/Ho_Chi_Minh")` is the constant `+07:00` offset. -/

/-- The `Asia/Ho_Chi_Minh` UTC offset in seconds. -/
def vnOffset : Int := 25200

/-- Decimal digits of a natural number (fuel-driven). -/
def natDigits : Nat → Nat → List Char
  | 0, _ => []
  | fuel + 1, n =>
    if n < 10 then [hexDigit n]
    else natDigits fuel (n / 10) ++ [hexDigit (n % 10)]

/-- Decimal string of a natural number. -/
def natStr (n : Nat) : String := ⟨natDigits (n + 1) n⟩

/-- Two-digit zero-padded field (`strftime` `%m`/`%d`, `isoformat` time fields). -/
def pad2 (n : Nat) : String := if n < 10 then "0" ++ natStr n else natStr n

/-- Four-digit zero-padded year. -/
def pad4 (n : Nat) : String :=
  if n < 10 then "000" ++ natStr n
  else if n < 100 then "00" ++ natStr n
  else if n < 1000 then "0" ++ natStr n
  else natStr n

/-- Proleptic-Gregorian civil date `(year, month, day)` from days since
1970-01-01 (the standard days-from-civil inverse). -/
def civilFromDays (z0 : Int) : Int × Nat × Nat :=
  let z := z0 + 719468
  let era := Int.fdiv z 146097
  let doe := (z - era * 146097).toNat
  let yoe := (doe - doe / 1460 + doe / 36524 - doe / 146096) / 365
  let doy := doe - (365 * yoe + yoe / 4 - yoe / 100)
  let mp := (5 * doy + 2) / 153
  let d := doy - (153 * mp + 2) / 5 + 1
  let m := if mp < 10 then mp + 3 else mp - 9
  ((yoe : Int) + era * 400 + (if m ≤ 2 then 1 else 0), m, d)

/-- `datetime.isoformat()` of an aware UTC instant at second resolution:
`YYYY-MM-DDTHH:MM:SS+00:00`. -/
def isoUTC (t : Int) : String :=
  let c := civilFromDays (Int.fdiv t 86400)
  let sod := (Int.fmod t 86400).toNat
  pad4 c.1.toNat ++ "-" ++ pad2 c.2.1 ++ "-" ++ pad2 c.2.2
    ++ "T" ++ pad2 (sod / 3600) ++ ":" ++ pad2 (sod / 60 % 60) ++ ":" ++ pad2 (sod % 60)
    ++ "+00:00"

/-- `get_date_filename` (app.py lines 50-51) applied to
`published.astimezone(TIMEZONE)` (line 114): the partition path
`public/news/MM-DD-YYYY.json` of the local date of a UTC instant. -/
def dateFilenameLocal (t : Int) : String :=
  let c := civilFromDays (Int.fdiv (t + vnOffset) 86400)
  "public/news/" ++ pad2 c.2.1 ++ "-" ++ pad2 c.2.2 ++ "-" ++ pad4 c.1.toNat ++ ".json"

/-! ### The persisted record and the date-partitioned store (app.py)

A partition file's decoded content is an ordered association list
`List (String × NewsItem)`: a Python `dict` preserves insertion order, and
JSON object key order is exactly that insertion order. -/

/-- The persisted item dict built in `crawl` (app.py lines 125-134).  The last
three fields are added only by the clustering pass; `ai_summary := some none`
embeds a key that is present with JSON `null`. -/
structure NewsItem where
  item_id : String
  source : String
  title : String
  summary : String
  link : String
  guid : String
  image : Option String
  published : String
  sources : Option (List (String × String)) := none
  cluster_count : Option Nat := none
  ai_summary : Option (Option String) := none
deriving DecidableEq, Repr

/-- A default record (used only as the out-of-range default of list indexing,
mirroring that Python indexing is always in range in the code). -/
def dummyItem : NewsItem := ⟨"", "", "", "", "", "", none, "", none, none, none⟩

/-- One dict yielded by a parser's `parse` (parsers.py): the fields read by
`crawl` (app.py lines 105-110). -/
structure RawItem where
  guid : String
  link : String
  title : String
  summary : String
  published : Int
  image : Option String
deriving DecidableEq, Repr

/-- Python dict assignment `d[k] = v` on an ordered association list: replaces
the value in place if the key is present, else appends. -/
def insertAL (l : List (String × NewsItem)) (k : String) (v : NewsItem) :
    List (String × NewsItem) :=
  match l with
  | [] => [(k, v)]
  | (k0, v0) :: t => if k0 = k then (k, v) :: t else (k0, v0) :: insertAL t k v

/-- The dict comprehension `{i["item_id"]: i for i in items}` (app.py line 66,
cluster_news.py line 113): fold Python dict assignment over the items. -/
def dictOfItems (items : List NewsItem) : List (String × NewsItem) :=
  items.foldl (fun d i => insertAL d i.item_id i) []

/-- The ordering used by `items.sort(key=lambda x: x.get("published", ""),
reverse=True)`: `x` may stay before `y` iff `y`'s key is not greater. -/
def pubDesc (x y : NewsItem) : Prop := pyStrLe y.published x.published = true

instance : DecidableRel pubDesc := fun x y =>
  inferInstanceAs (Decidable (_ = true))

/-- Python `list.sort(key=..., reverse=True)` (app.py line 64): a stable sort
descending by the `published` string.  Python's sort is stable, and any two
stable sorts under the same total preorder agree, so insertion sort embeds it
exactly. -/
def sortPubDesc (l : List NewsItem) : List NewsItem := List.insertionSort pubDesc l

/-- `save_day` (app.py lines 62-68): sort the mapping's values by `published`
descending and re-key the result by `item_id`.  The result is the decoded
content of the written file; `serializeDay` below gives its bytes. -/
def save_day (data : List (String × NewsItem)) : List (String × NewsItem) :=
  dictOfItems (sortPubDesc (data.map Prod.snd))

/-! ### JSON serialization (`json.dumps(..., ensure_ascii=False,
separators=(",", ":"))`, app.py lines 65-68) -/

/-- JSON escape of one character under `ensure_ascii=False`. -/
def jsonEscChar (c : Char) : List Char :=
  if c = '\"' then ['\\', '\"']
  else if c = '\\' then ['\\', '\\']
  else if 32 ≤ c.toNat then [c]
  else if c = Char.ofNat 10 then ['\\', 'n']
  else if c = Char.ofNat 9 then ['\\', 't']
  else if c = Char.ofNat 13 then ['\\', 'r']
  else if c = Char.ofNat 8 then ['\\', 'b']
  else if c = Char.ofNat 12 then ['\\', 'f']
  else ['\\', 'u', '0', '0', hexDigit (c.toNat / 16), hexDigit c.toNat]

/-- A JSON string literal. -/
def jstr (s : String) : String :=
  ⟨'\"' :: (s.data.map jsonEscChar).flatten ++ ['\"']⟩

/-- A JSON string-or-null. -/
def jopt : Option String → String
  | none => "null"
  | some s => jstr s

/-- Comma-joined fragments. -/
def joinComma : List String → String
  | [] => ""
  | [s] => s
  | s :: rest => s ++ "," ++ joinComma rest

/-- The `sources` list of dicts `[{"name": ..., "link": ...}, ...]`. -/
def serializeSources (ss : List (String × String)) : String :=
  "[" ++ joinComma (ss.map (fun nl =>
    "\x7b" ++ jstr "name" ++ ":" ++ jstr nl.1 ++ "," ++ jstr "link" ++ ":" ++ jstr nl.2 ++ "\x7d")) ++ "]"

/-- One `NewsItem` dict as `json.dumps` renders it, fields in dict insertion
order. -/
def serializeItem (it : NewsItem) : String :=
  "\x7b" ++ jstr "item_id" ++ ":" ++ jstr it.item_id
    ++ "," ++ jstr "source" ++ ":" ++ jstr it.source
    ++ "," ++ jstr "title" ++ ":" ++ jstr it.title
    ++ "," ++ jstr "summary" ++ ":" ++ jstr it.summary
    ++ "," ++ jstr "link" ++ ":" ++ jstr it.link
    ++ "," ++ jstr "guid" ++ ":" ++ jstr it.guid
    ++ "," ++ jstr "image" ++ ":" ++ jopt it.image
    ++ "," ++ jstr "published" ++ ":" ++ jstr it.published
    ++ (match it.sources with
        | none => ""
        | some ss => "," ++ jstr "sources" ++ ":" ++ serializeSources ss)
    ++ (match it.cluster_count with
        | none => ""
        | some n => "," ++ jstr "cluster_count" ++ ":" ++ natStr n)
    ++ (match it.ai_summary with
        | none => ""
        | some v => "," ++ jstr "ai_summary" ++ ":" ++ jopt v)
    ++ "\x7d"

/-- The bytes `path.write_text` receives (app.py lines 65-68): the compact
UTF-8 JSON object for an ordered mapping. -/
def serializeDay (l : List (String × NewsItem)) : String :=
  "\x7b" ++ joinComma (l.map (fun kv => jstr kv.1 ++ ":" ++ serializeItem kv.2)) ++ "\x7d"

/-! ### The ingestion loop (`crawl`, app.py lines 83-142)

The store is partition path to decoded partition content; an absent file and
an empty mapping coincide (`load_day` maps both to `{}`). -/

/-- Counters and store of a `crawl` run. -/
structure CrawlState where
  store : String → List (String × NewsItem)
  added : Nat
  updated : Nat
  processed : Nat

/-- The initial state: no partition file exists, all counters zero. -/
def emptyCrawl : CrawlState := ⟨fun _ => [], 0, 0, 0⟩

/-- The stripped `guid` local of `crawl` (app.py line 105). -/
def rawGuid (item : RawItem) : String := pyStrip (pyOr item.guid (pyOr item.link ""))

/-- `item_id` (app.py line 112): the fingerprint of the first non-empty of
`guid`, `link`, else `source + title + published.isoformat()`. -/
def fingerprint (guid link source title : String) (published : Int) : String :=
  sha1hexStr (pyOr guid (pyOr link (source ++ title ++ isoUTC published)))

/-- The `item_id` computed for one parsed item of a given source. -/
def rawItemId (source : String) (item : RawItem) : String :=
  fingerprint (rawGuid item) (pyStrip item.link) source (pyStrip item.title) item.published

/-- The `date_path` of one parsed item (app.py lines 114-115). -/
def rawDatePath (item : RawItem) : String := dateFilenameLocal item.published

/-- The dict stored under `existing[item_id]` (app.py lines 125-134). -/
def crawlEntry (source : String) (item : RawItem) : NewsItem :=
  let guid := rawGuid item
  let link := pyStrip item.link
  ⟨rawItemId source item, source, pyStrip item.title, pyOr item.summary "",
   link, pyOr guid link, item.image, isoUTC item.published, none, none, none⟩

/-- One iteration of the item loop of `crawl` (app.py lines 104-138). -/
def crawlStep (source : String) (force : Bool) (st : CrawlState) (item : RawItem) :
    CrawlState :=
  let item_id := rawItemId source item
  let date_path := rawDatePath item
  let existing := st.store date_path
  let write : CrawlState → CrawlState := fun s =>
    { s with
      store := fun p =>
        if p = date_path then save_day (insertAL existing item_id (crawlEntry source item))
        else s.store p
      processed := s.processed + 1 }
  match existing.lookup item_id with
  | some _ =>
    if force then write { st with updated := st.updated + 1 }
    else st
  | none => write { st with added := st.added + 1 }

/-- The flattened feed/url/item iteration of `crawl`: each element pairs the
feed's display name with one parsed item. -/
def crawlList (force : Bool) (st : CrawlState) (items : List (String × RawItem)) :
    CrawlState :=
  items.foldl (fun s p => crawlStep p.1 force s p.2) st

/-! ### Published-instant resolution (parsers.py lines 64-89 and 487-525)

`dateutil.parser.parse` is an external collaborator; an entry carries, for
each candidate field, `none` when the field is absent or falsy, `some none`
when parsing it raises, and `some (some dt)` when it parses to `dt`.  A parsed
`datetime` is its wall-clock reading in seconds together with its UTC offset
(`none` when the value carried no zone marker). -/

/-- A `dateutil`-parsed `datetime`: wall-clock seconds plus optional UTC
offset in seconds. -/
structure PyDateTime where
  wall : Int
  tz : Option Int
deriving DecidableEq, Repr

/-- `_to_utc_assume_vn` (parsers.py lines 64-70): naive values get
`tzinfo=VN_TZ` (+07:00) before `astimezone(utc)`. -/
def toUtcAssumeVn (d : PyDateTime) : Int :=
  match d.tz with
  | none => d.wall - vnOffset
  | some off => d.wall - off

/-- The timestamp-related fields of one feed entry, pre-composed with the
external parse: textual fields through `dtparse.parse`, structured tuples
through `datetime(*st[:6])` (which yields a naive wall-clock value). -/
structure EntryTimes where
  published : Option (Option PyDateTime)
  pubDate : Option (Option PyDateTime)
  updated : Option (Option PyDateTime)
  published_parsed : Option (Option Int)
  updated_parsed : Option (Option Int)
deriving DecidableEq, Repr

/-- One textual candidate of `_parse_ts`: absent or failing parses fall
through to the rest of the chain. -/
def tryTextVn (v : Option (Option PyDateTime)) (rest : Int) : Int :=
  match v with
  | some (some dt) => toUtcAssumeVn dt
  | _ => rest

/-- One structured candidate of `_parse_ts`: `datetime(*st[:6])` is naive, so
`_to_utc_assume_vn` assumes +07:00. -/
def tryStructVn (v : Option (Option Int)) (rest : Int) : Int :=
  match v with
  | some (some w) => toUtcAssumeVn ⟨w, none⟩
  | _ => rest

/-- `_parse_ts` (parsers.py lines 72-89) with the ambient current time made
explicit: the layered fallback ending at `datetime.now(timezone.utc)`. -/
def parseTs (e : EntryTimes) (now : Int) : Int :=
  tryTextVn e.published (tryTextVn e.pubDate (tryTextVn e.updated
    (tryStructVn e.published_parsed (tryStructVn e.updated_parsed now))))

/-- `minus7_utc` inside `VnEconomyHTMLParser._parse_published` (parsers.py
lines 490-495): naive values are treated as UTC, aware values are converted to
UTC, and then seven hours are subtracted. -/
def minus7Utc (d : PyDateTime) : Int :=
  (match d.tz with
   | none => d.wall
   | some off => d.wall - off) - 25200

/-- The timestamp candidates of one VnEconomy article page, in the order the
code probes them: three meta tags, the `<time datetime=...>` attribute, then
the visible `dd/mm/yyyy` text. -/
structure VnEcoPage where
  published_time : Option (Option PyDateTime)
  updated_time : Option (Option PyDateTime)
  pubdate : Option (Option PyDateTime)
  time_attr : Option (Option PyDateTime)
  visible : Option (Option PyDateTime)
deriving DecidableEq, Repr

/-- One candidate of `VnEconomyHTMLParser._parse_published`. -/
def tryMeta (v : Option (Option PyDateTime)) (rest : Int) : Int :=
  match v with
  | some (some dt) => minus7Utc dt
  | _ => rest

/-- `VnEconomyHTMLParser._parse_published` (parsers.py lines 487-525) with the
ambient current time explicit. -/
def vnEconomyParsePublished (p : VnEcoPage) (now : Int) : Int :=
  tryMeta p.published_time (tryMeta p.updated_time (tryMeta p.pubdate
    (tryMeta p.time_attr (tryMeta p.visible now))))

/-! ### Clustering (cluster_news.py lines 63-115)

The TF-IDF cosine similarity matrix comes from sklearn and is passed in as a
function on indices with rational values (the clustering loop only compares
entries against the threshold); `threshold` defaults to `0.75 = mkRat 3 4`. -/

/-- The inner scan of the greedy loop (cluster_news.py lines 82-85): absorb a
later index when it is unassigned and its similarity to the seed strictly
exceeds the threshold. -/
def simAbsorb (sim : Nat → Nat → ℚ) (th : ℚ) (seed : Nat)
    (p : List Nat × List Bool) (other : Nat) : List Nat × List Bool :=
  if p.2.getD other false = false ∧ th < sim seed other then
    (p.1 ++ [other], p.2.set other true)
  else p

/-- One outer iteration (cluster_news.py lines 79-86): a not-yet-assigned
index seeds a new cluster and scans all later indices. -/
def clusterStep (sim : Nat → Nat → ℚ) (th : ℚ) (n : Nat)
    (st : List Bool × List (List Nat)) (idx : Nat) : List Bool × List (List Nat) :=
  if st.1.getD idx false then st
  else
    let inner := (List.range' (idx + 1) (n - (idx + 1))).foldl
      (simAbsorb sim th idx) ([idx], st.1.set idx true)
    (inner.2, st.2 ++ [inner.1])

/-- The greedy single-link clustering of `n` titles (cluster_news.py lines
76-87). -/
def greedyClusters (n : Nat) (sim : Nat → Nat → ℚ) (th : ℚ) : List (List Nat) :=
  ((List.range n).foldl (clusterStep sim th n) (List.replicate n false, [])).2

/-- Invariant of the inner absorb scan at a fixed seed: `joined` is the set of
indices already clustered before this seed started; the pair `p` is the
growing cluster and the assignment array. -/
def AbsorbInv (sim : Nat → Nat → ℚ) (th : ℚ) (seed n : Nat) (joined : List Nat)
    (p : List Nat × List Bool) : Prop :=
  p.2.length = n
  ∧ (∀ j, p.2.getD j false = true ↔ (j ∈ joined ∨ j ∈ p.1))
  ∧ p.1.Nodup
  ∧ (∀ j ∈ p.1, j ∉ joined)
  ∧ (∀ j ∈ p.1, j < n)
  ∧ (∃ l, p.1 = seed :: l ∧ ∀ j ∈ l, seed < j ∧ j < n ∧ th < sim seed j)

/-- Invariant of the greedy clustering fold after the first `k` outer indices:
array length, assigned-iff-clustered, disjointness of clusters, index bounds,
progress, and the seed-strict shape of every cluster built so far. -/
def ClusterInv (sim : Nat → Nat → ℚ) (th : ℚ) (n k : Nat)
    (st : List Bool × List (List Nat)) : Prop :=
  st.1.length = n
  ∧ (∀ j, st.1.getD j false = true ↔ j ∈ st.2.flatten)
  ∧ st.2.flatten.Nodup
  ∧ (∀ j ∈ st.2.flatten, j < n)
  ∧ (∀ j, j < k → st.1.getD j false = true)
  ∧ (∀ c ∈ st.2, ∃ s l, c = s :: l ∧ s < n ∧ ∀ j ∈ l, s < j ∧ j < n ∧ th < sim s j)

/-- `it["cluster_count"] = 1` of the short branch (cluster_news.py line 68). -/
def setClusterCount (it : NewsItem) (n : Nat) : NewsItem :=
  { it with cluster_count := some n }

/-- The master record of one cluster (cluster_news.py lines 90-107): the item
at the cluster's first index, annotated with every member's `(source, link)`
pair, the member count, and — when the cluster is hot and a client exists —
the external synthesized summary.  `ai` is `none` when `OPENROUTER_API_KEY` is
absent; its value abstracts `get_ai_summary`, whose own result may be `None`. -/
def buildMaster (items : List NewsItem)
    (ai : Option (String → List NewsItem → Option String)) (c : List Nat) : NewsItem :=
  let master := items.getD (c.headD 0) dummyItem
  let sources := c.map (fun i => ((items.getD i dummyItem).source, (items.getD i dummyItem).link))
  let master := { master with sources := some sources, cluster_count := some sources.length }
  match ai with
  | some f =>
    if 1 < sources.length then
      { master with ai_summary := some (f master.title (c.map (items.getD · dummyItem))) }
    else master
  | none => master

/-- The per-file body of `cluster_news` (cluster_news.py lines 58-113): decode
the partition, cluster, and re-serialize.  An empty mapping is left untouched
(`if not items: continue`); with fewer than two titles each item merely
receives `cluster_count = 1`; otherwise non-master members are dropped and the
masters are re-keyed. -/
def clusterFile (part : List (String × NewsItem)) (sim : Nat → Nat → ℚ) (th : ℚ)
    (ai : Option (String → List NewsItem → Option String)) :
    List (String × NewsItem) :=
  let items := part.map Prod.snd
  if items = [] then part
  else if items.length < 2 then
    dictOfItems (sortPubDesc (items.map (fun it => setClusterCount it 1)))
  else
    let clusters := greedyClusters items.length sim th
    let finalItems := clusters.foldl
      (fun d c => insertAL d (buildMaster items ai c).item_id (buildMaster items ai c)) []
    dictOfItems (sortPubDesc (finalItems.map Prod.snd))

/-! ### `json.loads` and `load_day` (app.py lines 53-60)

A concrete recursive-descent parser of the JSON grammar, total by
construction (fuel-driven), standing for `json.loads`: `none` is a
`JSONDecodeError`.  Numeric lexemes are kept verbatim — `load_day` never
inspects numbers. -/

/-- A decoded JSON value. -/
inductive PyJson where
  | null : PyJson
  | bool : Bool → PyJson
  | num : String → PyJson
  | str : String → PyJson
  | arr : List PyJson → PyJson
  | obj : List (String × PyJson) → PyJson

/-- JSON insignificant whitespace. -/
def jsonWs (c : Char) : Bool := c = ' ' || c = '\t' || c = '\n' || c = '\r'

/-- Value of a hex digit character. -/
def hexVal (c : Char) : Option Nat :=
  if '0' ≤ c ∧ c ≤ '9' then some (c.toNat - 48)
  else if 'a' ≤ c ∧ c ≤ 'f' then some (c.toNat - 87)
  else if 'A' ≤ c ∧ c ≤ 'F' then some (c.toNat - 55)
  else none

/-- Short escape characters of JSON strings. -/
def jsonEscOf (c : Char) : Option Char :=
  if c = '\"' then some '\"'
  else if c = '\\' then some '\\'
  else if c = '/' then some '/'
  else if c = 'b' then some (Char.ofNat 8)
  else if c = 'f' then some (Char.ofNat 12)
  else if c = 'n' then some (Char.ofNat 10)
  else if c = 'r' then some (Char.ofNat 13)
  else if c = 't' then some (Char.ofNat 9)
  else none

/-- Parse the body of a JSON string literal, the opening quote already
consumed. -/
def parseStrBody : Nat → List Char → Option (List Char × List Char)
  | 0, _ => none
  | _ + 1, [] => none
  | fuel + 1, c :: rest =>
    if c = '\"' then some ([], rest)
    else if c = '\\' then
      match rest with
      | [] => none
      | e :: rest2 =>
        if e = 'u' then
          match rest2 with
          | a :: b :: c2 :: d2 :: rest3 =>
            match hexVal a, hexVal b, hexVal c2, hexVal d2 with
            | some x, some y, some z, some w =>
              match parseStrBody fuel rest3 with
              | some (cs, rem) => some (Char.ofNat (((x * 16 + y) * 16 + z) * 16 + w) :: cs, rem)
              | none => none
            | _, _, _, _ => none
          | _ => none
        else
          match jsonEscOf e with
          | some ec =>
            match parseStrBody fuel rest2 with
            | some (cs, rem) => some (ec :: cs, rem)
            | none => none
          | none => none
    else if c.toNat < 32 then none
    else
      match parseStrBody fuel rest with
      | some (cs, rem) => some (c :: cs, rem)
      | none => none

/-- Parse the digit run of a JSON number. -/
def parseDigits (l : List Char) : List Char × List Char :=
  (l.takeWhile (fun c => '0' ≤ c ∧ c ≤ '9'), l.dropWhile (fun c => '0' ≤ c ∧ c ≤ '9'))

/-- Parse a JSON number, returning its lexeme. -/
def parseNum (l : List Char) : Option (List Char × List Char) :=
  let (neg, l1) := match l with
    | '-' :: t => (['-'], t)
    | _ => (([] : List Char), l)
  let (ds, l2) := parseDigits l1
  if ds = [] then none
  else if ds.head? = some '0' ∧ ds.length ≠ 1 then none
  else
    let (frac, l3) := match l2 with
      | '.' :: t =>
        let (fs, r) := parseDigits t
        if fs = [] then (none, l2) else (some ('.' :: fs), r)
      | _ => (none, l2)
    match frac with
    | none =>
      match l2 with
      | '.' :: _ => none
      | _ => parseExpPart (neg ++ ds) l2
    | some fchars => parseExpPart (neg ++ ds ++ fchars) l3
where
  /-- Optional exponent part. -/
  parseExpPart (pre : List Char) (l : List Char) : Option (List Char × List Char) :=
    match l with
    | 'e' :: t => parseExpTail pre 'e' t
    | 'E' :: t => parseExpTail pre 'E' t
    | _ => some (pre, l)
  /-- Exponent digits after the marker. -/
  parseExpTail (pre : List Char) (mark : Char) (t : List Char) :
      Option (List Char × List Char) :=
    let (sgn, t1) := match t with
      | '+' :: r => (['+'], r)
      | '-' :: r => (['-'], r)
      | _ => (([] : List Char), t)
    let (es, t2) := parseDigits t1
    if es = [] then none else some (pre ++ mark :: sgn ++ es, t2)

mutual

/-- Parse one JSON value (leading whitespace already skipped). -/
def parseVal : Nat → List Char → Option (PyJson × List Char)
  | 0, _ => none
  | _ + 1, [] => none
  | fuel + 1, c :: rest =>
    if c = '\"' then
      match parseStrBody (rest.length + 1) rest with
      | some (cs, rem) => some (PyJson.str ⟨cs⟩, rem)
      | none => none
    else if c = '\x7b' then
      parseObjBody fuel (rest.dropWhile jsonWs) true
    else if c = '[' then
      parseArrBody fuel (rest.dropWhile jsonWs) true
    else if c = 't' then
      match rest with
      | 'r' :: 'u' :: 'e' :: rem => some (PyJson.bool true, rem)
      | _ => none
    else if c = 'f' then
      match rest with
      | 'a' :: 'l' :: 's' :: 'e' :: rem => some (PyJson.bool false, rem)
      | _ => none
    else if c = 'n' then
      match rest with
      | 'u' :: 'l' :: 'l' :: rem => some (PyJson.null, rem)
      | _ => none
    else
      match parseNum (c :: rest) with
      | some (lex, rem) => some (PyJson.num ⟨lex⟩, rem)
      | none => none

/-- Parse the members of an object after `{` (whitespace skipped); `first`
marks whether no member has been read yet. -/
def parseObjBody : Nat → List Char → Bool → Option (PyJson × List Char)
  | 0, _, _ => none
  | _ + 1, [], _ => none
  | fuel + 1, c :: rest, first =>
    if c = '\x7d' then some (PyJson.obj [], rest)
    else
      let l1 := if first then c :: rest else
        match c :: rest with
        | ',' :: t => t.dropWhile jsonWs
        | _ => []
      match l1 with
      | '\"' :: t =>
        match parseStrBody (t.length + 1) t with
        | some (ks, rem1) =>
          match rem1.dropWhile jsonWs with
          | ':' :: rem2 =>
            match parseVal fuel (rem2.dropWhile jsonWs) with
            | some (v, rem3) =>
              match parseObjBody fuel (rem3.dropWhile jsonWs) false with
              | some (PyJson.obj kvs, rem4) => some (PyJson.obj ((⟨ks⟩, v) :: kvs), rem4)
              | _ => none
            | none => none
          | _ => none
        | none => none
      | _ => none

/-- Parse the elements of an array after `[` (whitespace skipped). -/
def parseArrBody : Nat → List Char → Bool → Option (PyJson × List Char)
  | 0, _, _ => none
  | _ + 1, [], _ => none
  | fuel + 1, c :: rest, first =>
    if c = ']' then some (PyJson.arr [], rest)
    else
      let l1 := if first then c :: rest else
        match c :: rest with
        | ',' :: t => t.dropWhile jsonWs
        | _ => []
      match l1 with
      | [] => none
      | _ =>
        match parseVal fuel l1 with
        | some (v, rem1) =>
          match parseArrBody fuel (rem1.dropWhile jsonWs) false with
          | some (PyJson.arr vs, rem2) => some (PyJson.arr (v :: vs), rem2)
          | _ => none
        | none => none

end

/-- `json.loads` on a whole document: one value with only whitespace around
it, `none` for a `JSONDecodeError`. -/
def jsonLoads (s : String) : Option PyJson :=
  match parseVal (4 * s.data.length + 4) (s.data.dropWhile jsonWs) with
  | some (v, rem) => if rem.dropWhile jsonWs = [] then some v else none
  | none => none

/-- `load_day` (app.py lines 53-60) over an explicit file system
`path -> Option contents`: an absent file, a `JSONDecodeError`, and a
non-dict document all yield the empty mapping. -/
def load_day (fs : String → Option String) (path : String) :
    List (String × PyJson) :=
  match fs path with
  | none => []
  | some c =>
    match jsonLoads c with
    | none => []
    | some (PyJson.obj kvs) => kvs
    | some _ => []

/-- Well-formedness of a decoded partition: keys are distinct and each entry
is keyed by its own `item_id` (what `save_day` guarantees of every file it
writes). -/
def WFpart (l : List (String × NewsItem)) : Prop :=
  (l.map Prod.fst).Nodup ∧ ∀ kv ∈ l, kv.2.item_id = kv.1

/-! ## Infrastructure lemmas

### The code-point order -/

theorem pyCharsLt_irrefl : ∀ l : List Char, pyCharsLt l l = false
  | [] => rfl
  | a :: t => by simp [pyCharsLt, pyCharsLt_irrefl t]

theorem pyCharsLt_asymm : ∀ a b : List Char,
    pyCharsLt a b = true → pyCharsLt b a = false
  | [], [] => by simp [pyCharsLt]
  | [], b :: bs => by simp [pyCharsLt]
  | a :: as, [] => by simp [pyCharsLt]
  | a :: as, b :: bs => by
    simp only [pyCharsLt]
    rcases Nat.lt_trichotomy a.toNat b.toNat with h | h | h
    · have h2 : ¬ b.toNat < a.toNat := by omega
      simp [h, h2]
    · have h1 : ¬ a.toNat < b.toNat := by omega
      have h2 : ¬ b.toNat < a.toNat := by omega
      simp only [h1, if_false, h2]
      exact pyCharsLt_asymm as bs
    · have h1 : ¬ a.toNat < b.toNat := by omega
      simp [h1, h]

theorem pyCharsLt_trans : ∀ a b c : List Char,
    pyCharsLt a b = true → pyCharsLt b c = true → pyCharsLt a c = true
  | [], b, c => by cases b <;> cases c <;> simp [pyCharsLt]
  | a :: as, [], c => by simp [pyCharsLt]
  | a :: as, b :: bs, [] => by simp [pyCharsLt]
  | a :: as, b :: bs, c :: cs => by
    simp only [pyCharsLt]
    intro h1 h2
    rcases Nat.lt_trichotomy a.toNat b.toNat with hab | hab | hab <;>
      rcases Nat.lt_trichotomy b.toNat c.toNat with hbc | hbc | hbc
    · rw [if_pos (show a.toNat < c.toNat by omega)]
    · rw [if_pos (show a.toNat < c.toNat by omega)]
    · rw [if_neg (show ¬ b.toNat < c.toNat by omega), if_pos hbc] at h2
      exact absurd h2 Bool.false_ne_true
    · rw [if_pos (show a.toNat < c.toNat by omega)]
    · rw [if_neg (show ¬ a.toNat < b.toNat by omega),
          if_neg (show ¬ b.toNat < a.toNat by omega)] at h1
      rw [if_neg (show ¬ b.toNat < c.toNat by omega),
          if_neg (show ¬ c.toNat < b.toNat by omega)] at h2
      rw [if_neg (show ¬ a.toNat < c.toNat by omega),
          if_neg (show ¬ c.toNat < a.toNat by omega)]
      exact pyCharsLt_trans as bs cs h1 h2
    · rw [if_neg (show ¬ b.toNat < c.toNat by omega), if_pos hbc] at h2
      exact absurd h2 Bool.false_ne_true
    · rw [if_neg (show ¬ a.toNat < b.toNat by omega), if_pos hab] at h1
      exact absurd h1 Bool.false_ne_true
    · rw [if_neg (show ¬ a.toNat < b.toNat by omega), if_pos hab] at h1
      exact absurd h1 Bool.false_ne_true
    · rw [if_neg (show ¬ a.toNat < b.toNat by omega), if_pos hab] at h1
      exact absurd h1 Bool.false_ne_true

theorem charToNat_inj {a b : Char} (h : a.toNat = b.toNat) : a = b := by
  have ha := Char.ofNat_toNat a
  have hb := Char.ofNat_toNat b
  have h3 := congrArg Char.ofNat h
  cc

theorem pyCharsLt_conn : ∀ a b : List Char,
    pyCharsLt a b = false → pyCharsLt b a = false → a = b
  | [], [] => by simp
  | [], _ :: _ => by simp [pyCharsLt]
  | _ :: _, [] => by simp [pyCharsLt]
  | a :: as, b :: bs => by
    simp only [pyCharsLt]
    rcases Nat.lt_trichotomy a.toNat b.toNat with h | h | h
    · simp [h]
    · have hab : a = b := charToNat_inj h
      subst hab
      simp only [Nat.lt_irrefl, if_false]
      intro h1 h2
      rw [pyCharsLt_conn as bs h1 h2]
    · simp [h, Nat.not_lt.mpr (Nat.le_of_lt h)]

theorem bnot_true {b : Bool} (h : (!b) = true) : b = false := by
  cases b
  · rfl
  · exact absurd h (by simp)

/-- Mutual non-strictness of the Python string order forces equality. -/
theorem pyStrLe_antisymm {a b : String} (h1 : pyStrLe a b = true)
    (h2 : pyStrLe b a = true) : a = b := by
  unfold pyStrLe at h1 h2
  cases a with
  | mk da =>
    cases b with
    | mk db =>
      exact congrArg String.mk (pyCharsLt_conn da db (bnot_true h2) (bnot_true h1))

/-- `pubDesc x y` says the key of `y` does not exceed the key of `x`. -/
theorem pubDesc_iff (x y : NewsItem) :
    pubDesc x y ↔ pyCharsLt x.published.data y.published.data = false := by
  unfold pubDesc pyStrLe
  cases h : pyCharsLt x.published.data y.published.data <;> simp [h]

instance : IsTrans NewsItem pubDesc := by
  constructor
  intro x y z hxy hyz
  rw [pubDesc_iff] at hxy hyz ⊢
  cases hyx : pyCharsLt y.published.data x.published.data
  · have heq := pyCharsLt_conn _ _ hxy hyx
    rw [heq]
    exact hyz
  · cases hxz : pyCharsLt x.published.data z.published.data
    · rfl
    · have ht := pyCharsLt_trans _ _ _ hyx hxz
      rw [ht] at hyz
      exact hyz

instance : IsTotal NewsItem pubDesc := by
  constructor
  intro x y
  rw [pubDesc_iff x y, pubDesc_iff y x]
  cases h : pyCharsLt x.published.data y.published.data
  · left; rfl
  · right; exact pyCharsLt_asymm _ _ h

/-- Elements whose `published` keys are mutually non-greater coincide on
`published`. -/
theorem pubDesc_both_published {x y : NewsItem} (h1 : pubDesc x y)
    (h2 : pubDesc y x) : x.published = y.published :=
  pyStrLe_antisymm h2 h1

/-! ### Python dict assignment on association lists -/

theorem insertAL_mem {l : List (String × NewsItem)} {k0 : String} {v0 : NewsItem}
    {kv : String × NewsItem} (h : kv ∈ insertAL l k0 v0) : kv ∈ l ∨ kv = (k0, v0) := by
  induction l with
  | nil => simpa [insertAL] using h
  | cons hd t ih =>
    rw [insertAL] at h
    by_cases he : hd.1 = k0
    · rw [if_pos he] at h
      rcases List.mem_cons.mp h with h1 | h1
      · right; exact h1
      · left; exact List.mem_cons_of_mem _ h1
    · rw [if_neg he] at h
      rcases List.mem_cons.mp h with h1 | h1
      · left; rw [h1]; exact List.mem_cons_self _ _
      · rcases ih h1 with h2 | h2
        · left; exact List.mem_cons_of_mem _ h2
        · right; exact h2

theorem insertAL_keys_mem (l : List (String × NewsItem)) (k : String) (v : NewsItem)
    (h : k ∈ l.map Prod.fst) :
    (insertAL l k v).map Prod.fst = l.map Prod.fst := by
  induction l with
  | nil => simp at h
  | cons hd t ih =>
    rw [insertAL]
    by_cases he : hd.1 = k
    · rw [if_pos he]
      simp [he]
    · rw [if_neg he]
      simp only [List.map_cons, List.mem_cons] at h
      rcases h with h3 | h3
      · exact absurd h3.symm he
      · simp only [List.map_cons]
        rw [ih h3]

theorem insertAL_keys_not_mem (l : List (String × NewsItem)) (k : String) (v : NewsItem)
    (h : k ∉ l.map Prod.fst) : insertAL l k v = l ++ [(k, v)] := by
  induction l with
  | nil => rfl
  | cons hd t ih =>
    rw [insertAL]
    have he : hd.1 ≠ k := by
      intro he
      exact h (by simp [he])
    have h2 : k ∉ t.map Prod.fst := fun hm => h (by simp [hm])
    rw [if_neg he, ih h2]
    rfl

theorem insertAL_keys_nodup (l : List (String × NewsItem)) (k : String) (v : NewsItem)
    (h : (l.map Prod.fst).Nodup) : ((insertAL l k v).map Prod.fst).Nodup := by
  by_cases hm : k ∈ l.map Prod.fst
  · rw [insertAL_keys_mem l k v hm]
    exact h
  · rw [insertAL_keys_not_mem l k v hm]
    simp only [List.map_append, List.map_cons, List.map_nil]
    exact List.nodup_append.mpr ⟨h, List.nodup_singleton _, by
      simp only [List.disjoint_singleton]
      exact hm⟩

theorem insertAL_WF {l : List (String × NewsItem)} {k : String} {v : NewsItem}
    (h : WFpart l) (hv : v.item_id = k) : WFpart (insertAL l k v) := by
  refine ⟨insertAL_keys_nodup l k v h.1, ?_⟩
  intro kv hkv
  rcases insertAL_mem hkv with h1 | h1
  · exact h.2 kv h1
  · rw [h1]
    exact hv

theorem lookup_insertAL_self (l : List (String × NewsItem)) (k : String) (v : NewsItem) :
    (insertAL l k v).lookup k = some v := by
  induction l with
  | nil => simp [insertAL, List.lookup]
  | cons hd t ih =>
    rw [insertAL]
    by_cases he : hd.1 = k
    · rw [if_pos he]
      simp [List.lookup]
    · rw [if_neg he]
      have hb : (k == hd.1) = false := by
        simp only [beq_eq_false_iff_ne, ne_eq]
        exact fun hk => he hk.symm
      simp [List.lookup, hb, ih]

theorem lookup_insertAL_ne (l : List (String × NewsItem)) (k : String) (v : NewsItem)
    (k2 : String) (h : k2 ≠ k) : (insertAL l k v).lookup k2 = l.lookup k2 := by
  have hb : (k2 == k) = false := by
    simp only [beq_eq_false_iff_ne, ne_eq]
    exact h
  induction l with
  | nil => simp [insertAL, List.lookup, hb]
  | cons hd t ih =>
    rw [insertAL]
    by_cases he : hd.1 = k
    · rw [if_pos he]
      have hb2 : (k2 == hd.1) = false := by rw [he]; exact hb
      simp [List.lookup, hb, hb2]
    · rw [if_neg he]
      simp [List.lookup, ih]

/-! ### `lookup` on association lists -/

theorem lookup_isSome_iff_keys (l : List (String × NewsItem)) (k : String) :
    (l.lookup k).isSome = true ↔ k ∈ l.map Prod.fst := by
  induction l with
  | nil => simp [List.lookup]
  | cons hd t ih =>
    simp only [List.map_cons, List.mem_cons]
    by_cases he : k = hd.1
    · have hb : (k == hd.1) = true := by simp [he]
      simp [List.lookup, hb, he]
    · have hb : (k == hd.1) = false := by
        simp only [beq_eq_false_iff_ne, ne_eq]
        exact he
      simp [List.lookup, hb, he, ih]

theorem lookup_eq_some_iff_mem {l : List (String × NewsItem)}
    (h : (l.map Prod.fst).Nodup) (k : String) (v : NewsItem) :
    l.lookup k = some v ↔ (k, v) ∈ l := by
  induction l with
  | nil => simp [List.lookup]
  | cons hd t ih =>
    simp only [List.map_cons, List.nodup_cons] at h
    simp only [List.mem_cons]
    by_cases he : k = hd.1
    · have hb : (k == hd.1) = true := by simp [he]
      simp only [List.lookup, hb]
      constructor
      · intro hv
        left
        rw [he, (Option.some_inj.mp hv).symm]
      · rintro (h1 | h1)
        · rw [show hd = (k, v) from h1.symm]
        · exact absurd (he ▸ List.mem_map_of_mem Prod.fst h1) h.1
    · have hb : (k == hd.1) = false := by
        simp only [beq_eq_false_iff_ne, ne_eq]
        exact he
      simp only [List.lookup, hb]
      rw [ih h.2]
      constructor
      · exact fun h1 => Or.inr h1
      · rintro (h1 | h1)
        · exact absurd (congrArg Prod.fst h1) he
        · exact h1

/-! ### The rekeying dict comprehension -/

theorem dictFold_mem : ∀ (items : List NewsItem) (acc : List (String × NewsItem))
    (kv : String × NewsItem),
    kv ∈ items.foldl (fun d i => insertAL d i.item_id i) acc →
    kv ∈ acc ∨ (kv.2 ∈ items ∧ kv.2.item_id = kv.1)
  | [], _, _, h => Or.inl h
  | hd :: t, acc, kv, h => by
    rcases dictFold_mem t (insertAL acc hd.item_id hd) kv h with h1 | h1
    · rcases insertAL_mem h1 with h2 | h2
      · exact Or.inl h2
      · right
        rw [h2]
        exact ⟨List.mem_cons_self _ _, rfl⟩
    · right
      exact ⟨List.mem_cons_of_mem _ h1.1, h1.2⟩

theorem dictOfItems_mem {items : List NewsItem} {kv : String × NewsItem}
    (h : kv ∈ dictOfItems items) : kv.2 ∈ items ∧ kv.2.item_id = kv.1 := by
  rcases dictFold_mem items [] kv h with h1 | h1
  · simp at h1
  · exact h1

theorem dictFold_eq_append : ∀ (items : List NewsItem) (acc : List (String × NewsItem)),
    (items.map NewsItem.item_id).Nodup →
    (∀ i ∈ items, i.item_id ∉ acc.map Prod.fst) →
    items.foldl (fun d i => insertAL d i.item_id i) acc
      = acc ++ items.map (fun i => (i.item_id, i))
  | [], acc, _, _ => by simp
  | hd :: t, acc, hnd, hdisj => by
    simp only [List.foldl_cons]
    rw [insertAL_keys_not_mem acc hd.item_id hd (hdisj hd (List.mem_cons_self _ _))]
    simp only [List.map_cons, List.nodup_cons] at hnd
    rw [dictFold_eq_append t (acc ++ [(hd.item_id, hd)]) hnd.2 ?_]
    · simp
    · intro i hi
      simp only [List.map_append, List.map_cons, List.map_nil, List.mem_append,
        List.mem_singleton]
      rintro (hin | hin)
      · exact hdisj i (List.mem_cons_of_mem _ hi) hin
      · exact hnd.1 (hin ▸ List.mem_map_of_mem NewsItem.item_id hi)

/-- When the values carry pairwise-distinct `item_id`s, the rekeying dict is
just the pairing map. -/
theorem dictOfItems_eq_map {items : List NewsItem}
    (h : (items.map NewsItem.item_id).Nodup) :
    dictOfItems items = items.map (fun i => (i.item_id, i)) := by
  rw [dictOfItems, dictFold_eq_append items [] h (by simp)]
  rfl

/-! ### `save_day` -/

theorem sortPubDesc_perm (l : List NewsItem) : sortPubDesc l |>.Perm l :=
  List.perm_insertionSort pubDesc l

theorem sortPubDesc_sorted (l : List NewsItem) : List.Sorted pubDesc (sortPubDesc l) :=
  List.sorted_insertionSort pubDesc l

theorem save_day_keyed (data : List (String × NewsItem)) :
    ∀ kv ∈ save_day data, kv.2.item_id = kv.1 :=
  fun _ h => (dictOfItems_mem h).2

/-- The values of a well-formed partition carry pairwise-distinct ids. -/
theorem WFpart_values_nodup {l : List (String × NewsItem)} (h : WFpart l) :
    ((l.map Prod.snd).map NewsItem.item_id).Nodup := by
  have : (l.map Prod.snd).map NewsItem.item_id = l.map Prod.fst := by
    rw [List.map_map]
    exact List.map_congr_left (fun kv hkv => h.2 kv hkv)
  rw [this]
  exact h.1

theorem save_day_perm {l : List (String × NewsItem)} (h : WFpart l) :
    (save_day l).Perm l := by
  have hnd : ((sortPubDesc (l.map Prod.snd)).map NewsItem.item_id).Nodup :=
    (List.Perm.nodup_iff ((sortPubDesc_perm _).map NewsItem.item_id)).mpr
      (WFpart_values_nodup h)
  rw [save_day, dictOfItems_eq_map hnd]
  have h2 : (l.map Prod.snd).map (fun i => (i.item_id, i)) = l := by
    rw [List.map_map]
    have h3 : l.map ((fun (i : NewsItem) => (i.item_id, i)) ∘ Prod.snd) = l.map id := by
      apply List.map_congr_left
      intro kv hkv
      simp only [Function.comp_apply, id_eq]
      rw [h.2 kv hkv]
    rw [h3, List.map_id]
  have hp := (sortPubDesc_perm (l.map Prod.snd)).map (fun (i : NewsItem) => (i.item_id, i))
  rw [h2] at hp
  exact hp

theorem save_day_WF {l : List (String × NewsItem)} (h : WFpart l) :
    WFpart (save_day l) := by
  refine ⟨?_, save_day_keyed l⟩
  have hperm := (save_day_perm h).map Prod.fst
  exact (List.Perm.nodup_iff hperm).mpr h.1

/-- Two sorted permutations of each other agree when the order is antisymmetric
on the elements involved. -/
theorem eq_of_perm_of_sorted_anti : ∀ {l1 l2 : List NewsItem},
    l1.Perm l2 → List.Sorted pubDesc l1 → List.Sorted pubDesc l2 →
    (∀ x ∈ l1, ∀ y ∈ l1, pubDesc x y → pubDesc y x → x = y) → l1 = l2
  | [], l2, h, _, _, _ => h.nil_eq
  | x :: t1, [], h, _, _, _ => absurd (h.symm.nil_eq.symm) (by simp)
  | x :: t1, y :: t2, h, s1, s2, anti => by
    have hs1 := List.sorted_cons.mp s1
    have hs2 := List.sorted_cons.mp s2
    have hxy : x = y := by
      by_contra hne
      have hyin : y ∈ x :: t1 := h.mem_iff.mpr (List.mem_cons_self _ _)
      have hxin : x ∈ y :: t2 := h.mem_iff.mp (List.mem_cons_self _ _)
      have hy1 : y ∈ t1 := by
        rcases List.mem_cons.mp hyin with h1 | h1
        · exact absurd h1.symm hne
        · exact h1
      have hx2 : x ∈ t2 := by
        rcases List.mem_cons.mp hxin with h1 | h1
        · exact absurd h1 hne
        · exact h1
      exact hne (anti x (List.mem_cons_self _ _) y (List.mem_cons_of_mem _ hy1)
        (hs1.1 y hy1) (hs2.1 x hx2))
    subst hxy
    have ht : t1 = t2 :=
      eq_of_perm_of_sorted_anti h.cons_inv hs1.2 hs2.2
        (fun a ha b hb => anti a (List.mem_cons_of_mem _ ha) b (List.mem_cons_of_mem _ hb))
    rw [ht]

/-- With pairwise-distinct `published` keys, the stable descending sort of any
reordering of the same values is the same list. -/
theorem sortPubDesc_eq_of_perm {xs ys : List NewsItem} (hperm : xs.Perm ys)
    (hdist : (xs.map NewsItem.published).Nodup) :
    sortPubDesc xs = sortPubDesc ys := by
  apply eq_of_perm_of_sorted_anti
    ((sortPubDesc_perm xs).trans (hperm.trans (sortPubDesc_perm ys).symm))
    (sortPubDesc_sorted xs) (sortPubDesc_sorted ys)
  intro a ha b hb h1 h2
  have ha2 : a ∈ xs := (sortPubDesc_perm xs).mem_iff.mp ha
  have hb2 : b ∈ xs := (sortPubDesc_perm xs).mem_iff.mp hb
  exact List.inj_on_of_nodup_map hdist ha2 hb2 (pubDesc_both_published h1 h2)

theorem lookup_save_day {l : List (String × NewsItem)} (h : WFpart l) (k : String) :
    (save_day l).lookup k = l.lookup k := by
  cases hv : l.lookup k with
  | some v =>
    have hm := (lookup_eq_some_iff_mem h.1 k v).mp hv
    exact (lookup_eq_some_iff_mem (save_day_WF h).1 k v).mpr
      ((save_day_perm h).mem_iff.mpr hm)
  | none =>
    have hk : k ∉ l.map Prod.fst := by
      intro hm
      have := (lookup_isSome_iff_keys l k).mpr hm
      rw [hv] at this
      simp at this
    cases hv2 : (save_day l).lookup k with
    | none => rfl
    | some w =>
      have hm2 := (lookup_eq_some_iff_mem (save_day_WF h).1 k w).mp hv2
      have : (k, w) ∈ l := (save_day_perm h).mem_iff.mp hm2
      exact absurd (List.mem_map_of_mem Prod.fst this) hk

/-! ### The ingestion loop -/

theorem crawlStep_of_seen {source : String} {st : CrawlState} {item : RawItem}
    {v : NewsItem}
    (h : (st.store (rawDatePath item)).lookup (rawItemId source item) = some v) :
    crawlStep source false st item = st := by
  simp [crawlStep, h]

theorem crawlStep_store_other (source : String) (force : Bool) (st : CrawlState)
    (item : RawItem) (p : String) (hp : p ≠ rawDatePath item) :
    (crawlStep source force st item).store p = st.store p := by
  unfold crawlStep
  cases hl : (st.store (rawDatePath item)).lookup (rawItemId source item) with
  | some v => cases force <;> simp [hl, hp]
  | none => simp [hl, hp]

theorem crawlStep_store_target (source : String) (force : Bool) (st : CrawlState)
    (item : RawItem)
    (hnew : (st.store (rawDatePath item)).lookup (rawItemId source item) = none
        ∨ force = true) :
    (crawlStep source force st item).store (rawDatePath item)
      = save_day (insertAL (st.store (rawDatePath item)) (rawItemId source item)
          (crawlEntry source item)) := by
  unfold crawlStep
  cases hl : (st.store (rawDatePath item)).lookup (rawItemId source item) with
  | some v =>
    rcases hnew with hn | hf
    · rw [hl] at hn
      exact absurd hn (by simp)
    · subst hf
      simp [hl]
  | none => cases force <;> simp [hl]

theorem crawlStep_WF {st : CrawlState} (h : ∀ p, WFpart (st.store p))
    (source : String) (force : Bool) (item : RawItem) :
    ∀ p, WFpart ((crawlStep source force st item).store p) := by
  intro p
  by_cases hp : p = rawDatePath item
  · subst hp
    cases hl : (st.store (rawDatePath item)).lookup (rawItemId source item) with
    | some v =>
      cases force
      · rw [crawlStep_of_seen hl]
        exact h _
      · rw [crawlStep_store_target source true st item (Or.inr rfl)]
        exact save_day_WF (insertAL_WF (k := rawItemId source item) (v := crawlEntry source item) (h _) rfl)
    | none =>
      rw [crawlStep_store_target source force st item (Or.inl hl)]
      exact save_day_WF (insertAL_WF (k := rawItemId source item) (v := crawlEntry source item) (h _) rfl)
  · rw [crawlStep_store_other _ _ _ _ _ hp]
    exact h p

theorem crawlStep_lookup_preserved {st : CrawlState} (hWF : ∀ p, WFpart (st.store p))
    {p k : String} {v : NewsItem} (source : String) (item : RawItem)
    (h : (st.store p).lookup k = some v) :
    ((crawlStep source false st item).store p).lookup k = some v := by
  by_cases hp : p = rawDatePath item
  · subst hp
    cases hl : (st.store (rawDatePath item)).lookup (rawItemId source item) with
    | some w =>
      rw [crawlStep_of_seen hl]
      exact h
    | none =>
      have hk : k ≠ rawItemId source item := by
        intro he
        rw [he, hl] at h
        exact absurd h (by simp)
      rw [crawlStep_store_target source false st item (Or.inl hl),
        lookup_save_day (insertAL_WF (k := rawItemId source item) (v := crawlEntry source item) (hWF _) rfl),
        lookup_insertAL_ne _ _ _ _ hk]
      exact h
  · rw [crawlStep_store_other _ _ _ _ _ hp]
    exact h

theorem crawlStep_self_present {st : CrawlState} (hWF : ∀ p, WFpart (st.store p))
    (source : String) (item : RawItem) :
    ∃ w, ((crawlStep source false st item).store (rawDatePath item)).lookup
        (rawItemId source item) = some w := by
  cases hl : (st.store (rawDatePath item)).lookup (rawItemId source item) with
  | some w =>
    rw [crawlStep_of_seen hl]
    exact ⟨w, hl⟩
  | none =>
    refine ⟨crawlEntry source item, ?_⟩
    rw [crawlStep_store_target source false st item (Or.inl hl),
      lookup_save_day (insertAL_WF (k := rawItemId source item) (v := crawlEntry source item) (hWF _) rfl)]
    exact lookup_insertAL_self _ _ _

theorem crawlList_cons (force : Bool) (st : CrawlState) (hd : String × RawItem)
    (t : List (String × RawItem)) :
    crawlList force st (hd :: t) = crawlList force (crawlStep hd.1 force st hd.2) t := by
  simp [crawlList]

theorem crawlList_WF : ∀ (items : List (String × RawItem)) (force : Bool)
    (st : CrawlState), (∀ p, WFpart (st.store p)) →
    ∀ p, WFpart ((crawlList force st items).store p)
  | [], _, _, h => by simpa [crawlList] using h
  | hd :: t, force, st, h => by
    rw [crawlList_cons]
    exact crawlList_WF t force _ (crawlStep_WF h hd.1 force hd.2)

theorem crawlList_lookup_preserved :
    ∀ (items : List (String × RawItem)) (st : CrawlState),
    (∀ p, WFpart (st.store p)) → ∀ (p k : String) (v : NewsItem),
    (st.store p).lookup k = some v →
    ((crawlList false st items).store p).lookup k = some v
  | [], _, _, _, _, _, h => by simpa [crawlList] using h
  | hd :: t, st, hWF, p, k, v, h => by
    rw [crawlList_cons]
    exact crawlList_lookup_preserved t _ (crawlStep_WF hWF hd.1 false hd.2) p k v
      (crawlStep_lookup_preserved hWF hd.1 hd.2 h)

theorem crawlList_self_present :
    ∀ (items : List (String × RawItem)) (st : CrawlState),
    (∀ p, WFpart (st.store p)) → ∀ si ∈ items,
    ∃ w, ((crawlList false st items).store (rawDatePath si.2)).lookup
        (rawItemId si.1 si.2) = some w
  | [], _, _, si, hm => absurd hm (by simp)
  | hd :: t, st, hWF, si, hm => by
    rw [crawlList_cons]
    rcases List.mem_cons.mp hm with he | ht
    · subst he
      obtain ⟨w, hw⟩ := crawlStep_self_present hWF si.1 si.2
      exact ⟨w, crawlList_lookup_preserved t _
        (crawlStep_WF hWF si.1 false si.2) _ _ _ hw⟩
    · exact crawlList_self_present t _ (crawlStep_WF hWF hd.1 false hd.2) si ht

theorem crawlList_skip_all : ∀ (items : List (String × RawItem)) (st : CrawlState),
    (∀ si ∈ items, ∃ v,
      (st.store (rawDatePath si.2)).lookup (rawItemId si.1 si.2) = some v) →
    crawlList false st items = st
  | [], _, _ => by simp [crawlList]
  | hd :: t, st, h => by
    obtain ⟨v, hv⟩ := h hd (List.mem_cons_self _ _)
    rw [crawlList_cons, crawlStep_of_seen hv]
    exact crawlList_skip_all t st (fun si hsi => h si (List.mem_cons_of_mem _ hsi))

/-! ### Hex digest shape -/

theorem hexDigit_mem (n : Nat) : hexDigit n ∈ hexChars := by
  unfold hexDigit
  have h : n % 16 < 16 := Nat.mod_lt _ (by norm_num)
  set m := n % 16 with hm
  interval_cases m <;> decide

theorem wordHex_chars {w : Nat} {c : Char} (h : c ∈ wordHex w) : c ∈ hexChars := by
  rw [wordHex] at h
  rcases List.mem_map.mp h with ⟨i, _, hi⟩
  rw [← hi]
  exact hexDigit_mem _

theorem sha1hexStr_length (s : String) : (sha1hexStr s).length = 40 := by
  simp [sha1hexStr, sha1hexBytes, String.length, wordHex]

theorem sha1hexStr_chars (s : String) : ∀ c ∈ (sha1hexStr s).data, c ∈ hexChars := by
  intro c hc
  have hd : (sha1hexStr s).data
      = wordHex (sha1Words (utf8Bytes s)).h0 ++ wordHex (sha1Words (utf8Bytes s)).h1
        ++ wordHex (sha1Words (utf8Bytes s)).h2 ++ wordHex (sha1Words (utf8Bytes s)).h3
        ++ wordHex (sha1Words (utf8Bytes s)).h4 := by
    simp [sha1hexStr, sha1hexBytes]
  rw [hd] at hc
  simp only [List.mem_append] at hc
  rcases hc with ((((h | h) | h) | h) | h) <;> exact wordHex_chars h

/-! ## Claim theorems -/

/-- Claim C1: The fingerprint is a pure deterministic function of its five
inputs (equal inputs give equal output), returns a 40-character string of hex
digits (the SHA-1 hex digest), and hashes the first non-empty of `guid`,
`link`, else `source + title + publishedAt.isoformat()`. -/
theorem fingerprint_deterministic_hex (g l s t : String) (p : Int) :
    (∀ g2 l2 s2 t2 p2, g = g2 → l = l2 → s = s2 → t = t2 → p = p2 →
        fingerprint g l s t p = fingerprint g2 l2 s2 t2 p2)
  ∧ (fingerprint g l s t p).length = 40
  ∧ (∀ c ∈ (fingerprint g l s t p).data, c ∈ hexChars)
  ∧ (g ≠ "" → fingerprint g l s t p = sha1hexStr g)
  ∧ (g = "" → l ≠ "" → fingerprint g l s t p = sha1hexStr l)
  ∧ (g = "" → l = "" → fingerprint g l s t p = sha1hexStr (s ++ t ++ isoUTC p)) := by
  refine ⟨?_, ?_, ?_, ?_, ?_, ?_⟩
  · rintro g2 l2 s2 t2 p2 rfl rfl rfl rfl rfl
    rfl
  · exact sha1hexStr_length _
  · exact sha1hexStr_chars _
  · intro hg
    rw [fingerprint, pyOr, if_neg hg]
  · intro hg hl
    rw [fingerprint, pyOr, if_pos hg, pyOr, if_neg hl]
  · intro hg hl
    rw [fingerprint, pyOr, if_pos hg, pyOr, if_pos hl]

theorem fingerprint_deterministic_hex_witness :
    fingerprint "gd1" "" "src" "ti" 0 = sha1hexStr "gd1"
  ∧ (fingerprint "" "" "src" "ti" 0 = sha1hexStr ("src" ++ "ti" ++ isoUTC 0)) :=
  ⟨(fingerprint_deterministic_hex "gd1" "" "src" "ti" 0).2.2.2.1 (by decide),
   (fingerprint_deterministic_hex "" "" "src" "ti" 0).2.2.2.2.2 rfl rfl⟩

/-- Claim C2: With force-mode off a seen item is skipped: the state (store and
all counters) is left untouched; consequently a second identical run over any
well-formed starting store changes nothing — same partition contents, the
same `added` counter, and no duplicate keys anywhere. -/
theorem crawl_dedup_skip_idempotent :
    (∀ source st item v,
        (st.store (rawDatePath item)).lookup (rawItemId source item) = some v →
        crawlStep source false st item = st)
  ∧ ∀ (st0 : CrawlState) (items : List (String × RawItem)),
      (∀ p, WFpart (st0.store p)) →
      crawlList false (crawlList false st0 items) items = crawlList false st0 items
      ∧ (crawlList false (crawlList false st0 items) items).added
          = (crawlList false st0 items).added
      ∧ ∀ p, (((crawlList false st0 items).store p).map Prod.fst).Nodup := by
  constructor
  · intro source st item v h
    exact crawlStep_of_seen h
  · intro st0 items hWF
    have hWF1 := crawlList_WF items false st0 hWF
    have hid := crawlList_skip_all items (crawlList false st0 items)
      (crawlList_self_present items st0 hWF)
    exact ⟨hid, by rw [hid], fun p => (hWF1 p).1⟩

theorem crawl_dedup_skip_idempotent_witness :
    crawlList false (crawlList false emptyCrawl [("s", ⟨"g", "", "t", "x", 0, none⟩)])
        [("s", ⟨"g", "", "t", "x", 0, none⟩)]
      = crawlList false emptyCrawl [("s", ⟨"g", "", "t", "x", 0, none⟩)] :=
  (crawl_dedup_skip_idempotent.2 emptyCrawl [("s", ⟨"g", "", "t", "x", 0, none⟩)]
    (fun _ => ⟨List.nodup_nil, by intro kv h; exact absurd h (by simp [emptyCrawl])⟩)).1

/-- Claim C8: With force-mode on, a seen item is overwritten in place with the
freshly extracted record: the run counts it as `updated` (not `added`), the
stored entry under that fingerprint is the fresh extraction, and the
partition holds exactly one entry under that fingerprint. -/
theorem crawl_force_update (source : String) (st : CrawlState) (item : RawItem)
    (v : NewsItem) (hWF : WFpart (st.store (rawDatePath item)))
    (hseen : (st.store (rawDatePath item)).lookup (rawItemId source item) = some v) :
    (crawlStep source true st item).updated = st.updated + 1
  ∧ (crawlStep source true st item).added = st.added
  ∧ ((crawlStep source true st item).store (rawDatePath item)).lookup
      (rawItemId source item) = some (crawlEntry source item)
  ∧ (((crawlStep source true st item).store (rawDatePath item)).map Prod.fst).count
      (rawItemId source item) = 1 := by
  have htar := crawlStep_store_target source true st item (Or.inr rfl)
  have hWFi := insertAL_WF (k := rawItemId source item)
    (v := crawlEntry source item) hWF rfl
  refine ⟨?_, ?_, ?_, ?_⟩
  · simp [crawlStep, hseen]
  · simp [crawlStep, hseen]
  · rw [htar, lookup_save_day hWFi]
    exact lookup_insertAL_self _ _ _
  · rw [htar]
    apply List.count_eq_one_of_mem (save_day_WF hWFi).1
    apply (lookup_isSome_iff_keys _ _).mp
    rw [lookup_save_day hWFi, lookup_insertAL_self]
    rfl

theorem crawl_force_update_witness :
    (crawlStep "s" true
        ⟨fun p => if p = rawDatePath ⟨"g", "", "t", "x", 0, none⟩
            then [(rawItemId "s" ⟨"g", "", "t", "x", 0, none⟩,
                   crawlEntry "s" ⟨"g", "", "t", "x", 0, none⟩)] else [],
          0, 0, 0⟩
        ⟨"g", "", "t", "x", 0, none⟩).updated = 0 + 1 := by
  refine (crawl_force_update "s" _ ⟨"g", "", "t", "x", 0, none⟩
    (crawlEntry "s" ⟨"g", "", "t", "x", 0, none⟩) ?_ ?_).1
  · constructor
    · simp
    · intro kv hkv
      simp only [eq_self_iff_true, if_true, List.mem_singleton] at hkv
      rw [hkv]
      rfl
  · simp [List.lookup]

/-- Claim C6: `load_day` returns the empty mapping when the partition file is
absent, when its contents fail to parse as JSON, and when they parse to a
non-object document; when they parse to an object it returns that mapping.
Being a total function of the file contents, it never raises. -/
theorem load_day_tolerant :
    (∀ (fs : String → Option String) path, fs path = none → load_day fs path = [])
  ∧ (∀ (fs : String → Option String) path c, fs path = some c →
      jsonLoads c = none → load_day fs path = [])
  ∧ (∀ (fs : String → Option String) path c v, fs path = some c →
      jsonLoads c = some v → (∀ kvs, v ≠ PyJson.obj kvs) → load_day fs path = [])
  ∧ (∀ (fs : String → Option String) path c kvs, fs path = some c →
      jsonLoads c = some (PyJson.obj kvs) → load_day fs path = kvs) := by
  refine ⟨?_, ?_, ?_, ?_⟩
  · intro fs path h
    simp [load_day, h]
  · intro fs path c h1 h2
    simp [load_day, h1, h2]
  · intro fs path c v h1 h2 h3
    cases v with
    | null => simp [load_day, h1, h2]
    | bool b => simp [load_day, h1, h2]
    | num s => simp [load_day, h1, h2]
    | str s => simp [load_day, h1, h2]
    | arr xs => simp [load_day, h1, h2]
    | obj kvs => exact absurd rfl (h3 kvs)
  · intro fs path c kvs h1 h2
    simp [load_day, h1, h2]

theorem load_day_tolerant_witness :
    load_day (fun p => if p = "public/news/01-01-2025.json"
        then some "\x7bnot json" else none) "public/news/01-01-2025.json" = []
  ∧ load_day (fun _ => none) "public/news/01-01-2025.json" = [] :=
  ⟨load_day_tolerant.2.1 _ _ "\x7bnot json" (by simp) (by rfl),
   load_day_tolerant.1 _ _ rfl⟩

/-- Claim C5 (amended): Published-instant resolution is a total layered
fallback.  For the feed parsers' `_parse_ts`: textual fields are probed in
order `published`, `pubDate`, `updated`; a parsed value with no zone marker is
assumed to be at the fixed +07:00 offset while a zone-aware value is converted
to UTC per its own zone; then the structured tuples `published_parsed`,
`updated_parsed` are treated as naive (+07:00 assumed); the final fallback is
the current instant.  The VnEconomy article parser probes its candidates in
order but instead subtracts seven hours after UTC conversion, so only its
naive values behave as "+07:00 assumed" while its zone-aware values land
seven hours earlier than their zone-correct conversion; its fallback is also
the current instant.  Every result is an aware UTC instant by construction. -/
theorem published_resolution_chain (e : EntryTimes) (pg : VnEcoPage) (now : Int) :
    (∀ dt, e.published = some (some dt) → parseTs e now = toUtcAssumeVn dt)
  ∧ ((e.published = none ∨ e.published = some none) →
      ∀ dt, e.pubDate = some (some dt) → parseTs e now = toUtcAssumeVn dt)
  ∧ ((e.published = none ∨ e.published = some none) →
      (e.pubDate = none ∨ e.pubDate = some none) →
      ∀ dt, e.updated = some (some dt) → parseTs e now = toUtcAssumeVn dt)
  ∧ ((e.published = none ∨ e.published = some none) →
      (e.pubDate = none ∨ e.pubDate = some none) →
      (e.updated = none ∨ e.updated = some none) →
      ∀ w, e.published_parsed = some (some w) → parseTs e now = w - vnOffset)
  ∧ ((e.published = none ∨ e.published = some none) →
      (e.pubDate = none ∨ e.pubDate = some none) →
      (e.updated = none ∨ e.updated = some none) →
      (e.published_parsed = none ∨ e.published_parsed = some none) →
      ∀ w, e.updated_parsed = some (some w) → parseTs e now = w - vnOffset)
  ∧ ((e.published = none ∨ e.published = some none) →
      (e.pubDate = none ∨ e.pubDate = some none) →
      (e.updated = none ∨ e.updated = some none) →
      (e.published_parsed = none ∨ e.published_parsed = some none) →
      (e.updated_parsed = none ∨ e.updated_parsed = some none) →
      parseTs e now = now)
  ∧ (∀ w, toUtcAssumeVn ⟨w, none⟩ = w - vnOffset)
  ∧ (∀ w off, toUtcAssumeVn ⟨w, some off⟩ = w - off)
  ∧ (∀ dt, pg.published_time = some (some dt) →
      vnEconomyParsePublished pg now = minus7Utc dt)
  ∧ (∀ w, minus7Utc ⟨w, none⟩ = w - 25200)
  ∧ (∀ w off, minus7Utc ⟨w, some off⟩ = (w - off) - 25200)
  ∧ ((pg.published_time = none ∨ pg.published_time = some none) →
      (pg.updated_time = none ∨ pg.updated_time = some none) →
      (pg.pubdate = none ∨ pg.pubdate = some none) →
      (pg.time_attr = none ∨ pg.time_attr = some none) →
      (pg.visible = none ∨ pg.visible = some none) →
      vnEconomyParsePublished pg now = now) := by
  refine ⟨?_, ?_, ?_, ?_, ?_, ?_, ?_, ?_, ?_, ?_, ?_, ?_⟩
  · intro dt h
    simp [parseTs, tryTextVn, h]
  · rintro (h1 | h1) <;> intro dt h <;> simp [parseTs, tryTextVn, h1, h]
  · rintro (h1 | h1) (h2 | h2) <;> intro dt h <;>
      simp [parseTs, tryTextVn, h1, h2, h]
  · rintro (h1 | h1) (h2 | h2) (h3 | h3) <;> intro w h <;>
      simp [parseTs, tryTextVn, tryStructVn, toUtcAssumeVn, h1, h2, h3, h]
  · rintro (h1 | h1) (h2 | h2) (h3 | h3) (h4 | h4) <;> intro w h <;>
      simp [parseTs, tryTextVn, tryStructVn, toUtcAssumeVn, h1, h2, h3, h4, h]
  · rintro (h1 | h1) (h2 | h2) (h3 | h3) (h4 | h4) (h5 | h5) <;>
      simp [parseTs, tryTextVn, tryStructVn, h1, h2, h3, h4, h5]
  · intro w
    rfl
  · intro w off
    rfl
  · intro dt h
    simp [vnEconomyParsePublished, tryMeta, h]
  · intro w
    rfl
  · intro w off
    rfl
  · rintro (h1 | h1) (h2 | h2) (h3 | h3) (h4 | h4) (h5 | h5) <;>
      simp [vnEconomyParsePublished, tryMeta, h1, h2, h3, h4, h5]

theorem published_resolution_chain_witness :
    parseTs ⟨none, none, none, none, none⟩ 12345 = 12345
  ∧ parseTs ⟨some (some ⟨7200, none⟩), none, none, none, none⟩ 0 = 7200 - vnOffset
  ∧ vnEconomyParsePublished ⟨some (some ⟨7200, some 3600⟩), none, none, none, none⟩ 0
      = (7200 - 3600) - 25200 :=
  ⟨(published_resolution_chain ⟨none, none, none, none, none⟩
      ⟨none, none, none, none, none⟩ 12345).2.2.2.2.2.1
      (Or.inl rfl) (Or.inl rfl) (Or.inl rfl) (Or.inl rfl) (Or.inl rfl),
   (published_resolution_chain ⟨some (some ⟨7200, none⟩), none, none, none, none⟩
      ⟨none, none, none, none, none⟩ 0).1 ⟨7200, none⟩ rfl,
   by
    rw [(published_resolution_chain ⟨none, none, none, none, none⟩
      ⟨some (some ⟨7200, some 3600⟩), none, none, none, none⟩ 0).2.2.2.2.2.2.2.2.1
      ⟨7200, some 3600⟩ rfl]
    rfl⟩

/-- Claim C5, counterexample: The claim as stated — an explicitly-zoned value is
converted to UTC according to its zone, on article pages too — fails on the
VnEconomy parser: a `+00:00`-zoned instant at epoch 0 resolves to `-25200`,
seven hours before its zone-correct conversion `0`. -/
theorem published_resolution_vneco_cex :
    vnEconomyParsePublished ⟨some (some ⟨0, some 0⟩), none, none, none, none⟩ 999
      = -25200
  ∧ toUtcAssumeVn ⟨0, some 0⟩ = 0
  ∧ (-25200 : Int) ≠ 0 := by
  refine ⟨rfl, rfl, by decide⟩

/-- Claim C10: Every mapping the system writes — `save_day` output and the
clustering pass's rewrite of a non-empty partition — is key-consistent: each
key equals the `item_id` of the record stored under it. -/
theorem written_partitions_key_consistent :
    (∀ data kv, kv ∈ save_day data → kv.2.item_id = kv.1)
  ∧ (∀ part sim th ai kv, part ≠ [] → kv ∈ clusterFile part sim th ai →
      kv.2.item_id = kv.1) := by
  constructor
  · exact fun data kv h => (dictOfItems_mem h).2
  · intro part sim th ai kv hne h
    have hit : ¬ part.map Prod.snd = [] := by simpa using hne
    simp only [clusterFile, if_neg hit] at h
    by_cases hlen : (part.map Prod.snd).length < 2
    · rw [if_pos hlen] at h
      exact (dictOfItems_mem h).2
    · rw [if_neg hlen] at h
      exact (dictOfItems_mem h).2

theorem written_partitions_key_consistent_witness :
    (setClusterCount ⟨"a", "s", "t", "x", "l", "g", none, "p", none, none, none⟩ 1).item_id
      = "a" :=
  written_partitions_key_consistent.2
    [("a", ⟨"a", "s", "t", "x", "l", "g", none, "p", none, none, none⟩)]
    (fun _ _ => 0) (mkRat 3 4) none
    ("a", setClusterCount ⟨"a", "s", "t", "x", "l", "g", none, "p", none, none, none⟩ 1)
    (by simp) (by decide)

/-- Claim C7 (amended): `save_day` writes the record set sorted by `published`
descending, re-keyed by `item_id`.  It is deterministic (equal mappings give
byte-identical files), and two mappings with the same associations in
different insertion order give byte-identical files provided no two records
share a `published` string; at ties the stable sort preserves insertion order,
so outputs may differ byte-wise (see the counterexample). -/
theorem save_day_sorted_rekeyed_idempotent (a b : List (String × NewsItem)) :
    (WFpart a → List.Sorted pubDesc ((save_day a).map Prod.snd))
  ∧ (∀ kv ∈ save_day a, kv.2.item_id = kv.1)
  ∧ (a = b → serializeDay (save_day a) = serializeDay (save_day b))
  ∧ (a.Perm b → ((a.map Prod.snd).map NewsItem.published).Nodup →
      serializeDay (save_day a) = serializeDay (save_day b)) := by
  refine ⟨?_, ?_, ?_, ?_⟩
  · intro hWF
    have hnd : ((sortPubDesc (a.map Prod.snd)).map NewsItem.item_id).Nodup :=
      (List.Perm.nodup_iff ((sortPubDesc_perm _).map NewsItem.item_id)).mpr
        (WFpart_values_nodup hWF)
    rw [save_day, dictOfItems_eq_map hnd, List.map_map]
    have : (Prod.snd ∘ fun (i : NewsItem) => (i.item_id, i)) = id := rfl
    rw [this, List.map_id]
    exact sortPubDesc_sorted _
  · exact fun kv h => (dictOfItems_mem h).2
  · intro h
    rw [h]
  · intro hperm hdist
    have hv : (a.map Prod.snd).Perm (b.map Prod.snd) := hperm.map Prod.snd
    rw [save_day, save_day, sortPubDesc_eq_of_perm hv hdist]

theorem save_day_sorted_rekeyed_idempotent_witness :
    serializeDay (save_day
        [("k1", ⟨"k1", "s", "t", "x", "l", "g", none, "q", none, none, none⟩),
         ("k2", ⟨"k2", "s", "t", "x", "l", "g", none, "p", none, none, none⟩)])
      = serializeDay (save_day
        [("k2", ⟨"k2", "s", "t", "x", "l", "g", none, "p", none, none, none⟩),
         ("k1", ⟨"k1", "s", "t", "x", "l", "g", none, "q", none, none, none⟩)]) :=
  (save_day_sorted_rekeyed_idempotent
      [("k1", ⟨"k1", "s", "t", "x", "l", "g", none, "q", none, none, none⟩),
       ("k2", ⟨"k2", "s", "t", "x", "l", "g", none, "p", none, none, none⟩)]
      [("k2", ⟨"k2", "s", "t", "x", "l", "g", none, "p", none, none, none⟩),
       ("k1", ⟨"k1", "s", "t", "x", "l", "g", none, "q", none, none, none⟩)]).2.2.2
    (by decide) (by decide)

/-- Claim C7, counterexample: Two mappings with the very same key-record
associations but different insertion order and a tied `published` string
serialize to different bytes: the stable descending sort keeps insertion
order at ties, so order-independent byte-identity fails as claimed. -/
theorem save_day_order_cex :
    ([("k1", ⟨"k1", "s", "t", "x", "l", "g", none, "p", none, none, none⟩),
      ("k2", ⟨"k2", "s", "t", "x", "l", "g", none, "p", none, none, none⟩)]
        : List (String × NewsItem)).Perm
      [("k2", ⟨"k2", "s", "t", "x", "l", "g", none, "p", none, none, none⟩),
       ("k1", ⟨"k1", "s", "t", "x", "l", "g", none, "p", none, none, none⟩)]
  ∧ serializeDay (save_day
        [("k1", ⟨"k1", "s", "t", "x", "l", "g", none, "p", none, none, none⟩),
         ("k2", ⟨"k2", "s", "t", "x", "l", "g", none, "p", none, none, none⟩)])
      ≠ serializeDay (save_day
        [("k2", ⟨"k2", "s", "t", "x", "l", "g", none, "p", none, none, none⟩),
         ("k1", ⟨"k1", "s", "t", "x", "l", "g", none, "p", none, none, none⟩)]) := by
  constructor
  · decide
  · decide

theorem mem_keys_insertAL {ex : List (String × NewsItem)} {i k : String} {e : NewsItem}
    (h : k ∈ (insertAL ex i e).map Prod.fst) : k ∈ ex.map Prod.fst ∨ k = i := by
  by_cases hm : i ∈ ex.map Prod.fst
  · rw [insertAL_keys_mem _ _ _ hm] at h
    exact Or.inl h
  · rw [insertAL_keys_not_mem _ _ _ hm] at h
    simp only [List.map_append, List.map_cons, List.map_nil, List.mem_append,
      List.mem_singleton] at h
    exact h

theorem crawlStep_keys_subset {st : CrawlState} (hWF : ∀ p, WFpart (st.store p))
    (source : String) (force : Bool) (item : RawItem) (p k : String)
    (h : k ∈ ((crawlStep source force st item).store p).map Prod.fst) :
    k ∈ (st.store p).map Prod.fst
      ∨ (k = rawItemId source item ∧ p = rawDatePath item) := by
  by_cases hp : p = rawDatePath item
  · subst hp
    cases hl : (st.store (rawDatePath item)).lookup (rawItemId source item) with
    | some v =>
      cases force with
      | false =>
        rw [crawlStep_of_seen hl] at h
        exact Or.inl h
      | true =>
        rw [crawlStep_store_target source true st item (Or.inr rfl)] at h
        have hWFi := insertAL_WF (k := rawItemId source item)
          (v := crawlEntry source item) (hWF (rawDatePath item)) rfl
        have hkeys := ((save_day_perm hWFi).map Prod.fst).mem_iff.mp h
        rcases mem_keys_insertAL hkeys with h1 | h1
        · exact Or.inl h1
        · exact Or.inr ⟨h1, rfl⟩
    | none =>
      rw [crawlStep_store_target source force st item (Or.inl hl)] at h
      have hWFi := insertAL_WF (k := rawItemId source item)
        (v := crawlEntry source item) (hWF (rawDatePath item)) rfl
      have hkeys := ((save_day_perm hWFi).map Prod.fst).mem_iff.mp h
      rcases mem_keys_insertAL hkeys with h1 | h1
      · exact Or.inl h1
      · exact Or.inr ⟨h1, rfl⟩
  · rw [crawlStep_store_other _ _ _ _ _ hp] at h
    exact Or.inl h

theorem crawlList_key_provenance :
    ∀ (work : List (String × RawItem)) (items : List (String × RawItem))
      (st : CrawlState) (force : Bool),
    (∀ x ∈ work, x ∈ items) →
    (∀ p, WFpart (st.store p)) →
    (∀ p k, k ∈ (st.store p).map Prod.fst →
      ∃ si ∈ items, rawItemId si.1 si.2 = k ∧ rawDatePath si.2 = p) →
    ∀ p k, k ∈ ((crawlList force st work).store p).map Prod.fst →
      ∃ si ∈ items, rawItemId si.1 si.2 = k ∧ rawDatePath si.2 = p
  | [], _, st, _, _, _, hprov, p, k, h => hprov p k (by simpa [crawlList] using h)
  | hd :: t, items, st, force, hsub, hWF, hprov, p, k, h => by
    rw [crawlList_cons] at h
    refine crawlList_key_provenance t items _ force
      (fun x hx => hsub x (List.mem_cons_of_mem _ hx))
      (crawlStep_WF hWF hd.1 force hd.2) ?_ p k h
    intro q k2 hk2
    rcases crawlStep_keys_subset hWF hd.1 force hd.2 q k2 hk2 with h1 | ⟨h1, h2⟩
    · exact hprov q k2 h1
    · exact ⟨hd, hsub hd (List.mem_cons_self _ _), h1.symm, h2.symm⟩

/-- Claim C4 (amended): Each processed item touches only the partition of its
`published` local date (all other partitions are untouched, in particular the
crawl-time partition when different).  Starting from an empty store, an
`itemID` appears in at most one partition provided any two processed items
with equal fingerprints carry equal local published dates — a proviso the code
does not enforce: items sharing a fingerprint but differing in published date
land in two partitions (see the counterexample). -/
theorem crawl_partition_routing :
    (∀ source force st item p, p ≠ rawDatePath item →
        (crawlStep source force st item).store p = st.store p)
  ∧ ∀ (force : Bool) (items : List (String × RawItem)),
      (∀ si ∈ items, ∀ sj ∈ items, rawItemId si.1 si.2 = rawItemId sj.1 sj.2 →
        rawDatePath si.2 = rawDatePath sj.2) →
      ∀ p q k, k ∈ ((crawlList force emptyCrawl items).store p).map Prod.fst →
        k ∈ ((crawlList force emptyCrawl items).store q).map Prod.fst → p = q := by
  constructor
  · exact fun source force st item p hp =>
      crawlStep_store_other source force st item p hp
  · intro force items hcompat p q k hp hq
    have hWF0 : ∀ p, WFpart (emptyCrawl.store p) := fun _ =>
      ⟨List.nodup_nil, by intro kv h; exact absurd h (by simp [emptyCrawl])⟩
    have hprov0 : ∀ (p k : String), k ∈ (emptyCrawl.store p).map Prod.fst →
        ∃ si ∈ items, rawItemId si.1 si.2 = k ∧ rawDatePath si.2 = p := by
      intro p k h
      exact absurd h (by simp [emptyCrawl])
    obtain ⟨si, hsi, hsik, hsip⟩ :=
      crawlList_key_provenance items items emptyCrawl force (fun x hx => hx)
        hWF0 hprov0 p k hp
    obtain ⟨sj, hsj, hsjk, hsjp⟩ :=
      crawlList_key_provenance items items emptyCrawl force (fun x hx => hx)
        hWF0 hprov0 q k hq
    rw [← hsip, ← hsjp]
    exact hcompat si hsi sj hsj (by rw [hsik, hsjk])

theorem crawl_partition_routing_witness :
    (crawlStep "s" false emptyCrawl ⟨"g", "", "t", "x", 0, none⟩).store
        "public/news/02-02-1970.json"
      = emptyCrawl.store "public/news/02-02-1970.json" :=
  crawl_partition_routing.1 "s" false emptyCrawl ⟨"g", "", "t", "x", 0, none⟩
    "public/news/02-02-1970.json" (by decide)

/-- Claim C4, counterexample: Two items with the same `guid` (hence the same
fingerprint) but `published` a day apart: after one run from the empty store
the same `itemID` sits in two different partitions, refuting the claim's
"at most one partition". -/
theorem crawl_partition_routing_cex :
    rawDatePath (⟨"g", "", "t", "x", 0, none⟩ : RawItem)
        ≠ rawDatePath (⟨"g", "", "t", "x", 86400, none⟩ : RawItem)
  ∧ rawItemId "s" ⟨"g", "", "t", "x", 0, none⟩
        = rawItemId "s" ⟨"g", "", "t", "x", 86400, none⟩
  ∧ ((crawlList false emptyCrawl
        [("s", ⟨"g", "", "t", "x", 0, none⟩),
         ("s", ⟨"g", "", "t", "x", 86400, none⟩)]).store
        (rawDatePath (⟨"g", "", "t", "x", 0, none⟩ : RawItem))).lookup
      (rawItemId "s" ⟨"g", "", "t", "x", 0, none⟩) ≠ none
  ∧ ((crawlList false emptyCrawl
        [("s", ⟨"g", "", "t", "x", 0, none⟩),
         ("s", ⟨"g", "", "t", "x", 86400, none⟩)]).store
        (rawDatePath (⟨"g", "", "t", "x", 86400, none⟩ : RawItem))).lookup
      (rawItemId "s" ⟨"g", "", "t", "x", 0, none⟩) ≠ none := by
  refine ⟨by decide, by decide, by decide, by decide⟩

/-! ### Clustering loop invariants -/

theorem foldl_inv {β : Type} (f : β → Nat → β) (P : β → Prop) :
    ∀ (l : List Nat) (acc : β), P acc → (∀ a, ∀ x ∈ l, P a → P (f a x)) →
    P (l.foldl f acc)
  | [], _, h, _ => h
  | x :: t, acc, h, hstep =>
    foldl_inv f P t (f acc x) (hstep acc x (List.mem_cons_self _ _) h)
      (fun a y hy => hstep a y (List.mem_cons_of_mem _ hy))

theorem getD_set_ne (l : List Bool) (i j : Nat) (b : Bool) (h : i ≠ j) :
    (l.set i b).getD j false = l.getD j false := by
  rw [List.getD_eq_getElem?_getD, List.getD_eq_getElem?_getD, List.getElem?_set_ne h]

theorem getD_set_self (l : List Bool) (i : Nat) (b : Bool) (h : i < l.length) :
    (l.set i b).getD i false = b := by
  rw [List.getD_eq_getElem?_getD, List.getElem?_set_self h]
  rfl

theorem getD_replicate_false (n j : Nat) : (List.replicate n false).getD j false = false := by
  rw [List.getD_eq_getElem?_getD]
  cases h : (List.replicate n false)[j]? with
  | none => rfl
  | some b =>
    have hm := List.getElem?_mem h
    rw [List.eq_of_mem_replicate hm]
    rfl

theorem absorbFold_inv (sim : Nat → Nat → ℚ) (th : ℚ) (seed n : Nat)
    (joined : List Nat) :
    ∀ (others : List Nat) (acc : List Nat × List Bool),
    (∀ x ∈ others, seed < x ∧ x < n) →
    AbsorbInv sim th seed n joined acc →
    AbsorbInv sim th seed n joined (others.foldl (simAbsorb sim th seed) acc)
  | [], _, _, h => h
  | o :: t, acc, hb, h => by
    obtain ⟨hlen, hiff, hnd, hjd, hbnd, l0, hshape, hl0⟩ := h
    have hob := hb o (List.mem_cons_self _ _)
    have hstep : AbsorbInv sim th seed n joined (simAbsorb sim th seed acc o) := by
      by_cases hc : acc.2.getD o false = false ∧ th < sim seed o
      · have hnotin : o ∉ joined ∧ o ∉ acc.1 := by
          constructor <;> intro hin
          · rw [(hiff o).mpr (Or.inl hin)] at hc
            exact absurd hc.1 (by simp)
          · rw [(hiff o).mpr (Or.inr hin)] at hc
            exact absurd hc.1 (by simp)
        rw [simAbsorb, if_pos hc]
        refine ⟨by simpa using hlen, ?_, ?_, ?_, ?_, l0 ++ [o], ?_, ?_⟩
        · intro j
          by_cases hj : j = o
          · subst hj
            rw [getD_set_self _ _ _ (by rw [hlen]; exact hob.2)]
            simp
          · rw [getD_set_ne _ _ _ _ (fun he => hj he.symm), hiff j]
            simp only [List.mem_append, List.mem_singleton]
            constructor
            · rintro (h1 | h1)
              · exact Or.inl h1
              · exact Or.inr (Or.inl h1)
            · rintro (h1 | h1 | h1)
              · exact Or.inl h1
              · exact Or.inr h1
              · exact absurd h1 hj
        · exact List.nodup_append.mpr ⟨hnd, List.nodup_singleton _, by
            simp only [List.disjoint_singleton]
            exact hnotin.2⟩
        · intro j hj
          rcases List.mem_append.mp hj with h1 | h1
          · exact hjd j h1
          · rw [List.mem_singleton.mp h1]
            exact hnotin.1
        · intro j hj
          rcases List.mem_append.mp hj with h1 | h1
          · exact hbnd j h1
          · rw [List.mem_singleton.mp h1]
            exact hob.2
        · rw [hshape]
          rfl
        · intro j hj
          rcases List.mem_append.mp hj with h1 | h1
          · exact hl0 j h1
          · rw [List.mem_singleton.mp h1]
            exact ⟨hob.1, hob.2, hc.2⟩
      · rw [simAbsorb, if_neg hc]
        exact ⟨hlen, hiff, hnd, hjd, hbnd, l0, hshape, hl0⟩
    exact absorbFold_inv sim th seed n joined t _
      (fun x hx => hb x (List.mem_cons_of_mem _ hx)) hstep

theorem clusterStep_inv (sim : Nat → Nat → ℚ) (th : ℚ) (n k : Nat)
    (st : List Bool × List (List Nat)) (hk : k < n)
    (h : ClusterInv sim th n k st) :
    ClusterInv sim th n (k + 1) (clusterStep sim th n st k) := by
  obtain ⟨h1, h2, h3, h4, h5, h6⟩ := h
  by_cases ha : st.1.getD k false = true
  · rw [clusterStep, if_pos ha]
    refine ⟨h1, h2, h3, h4, ?_, h6⟩
    intro j hj
    rcases Nat.lt_succ_iff_lt_or_eq.mp hj with hj2 | hj2
    · exact h5 j hj2
    · rw [hj2]
      exact ha
  · rw [clusterStep, if_neg ha]
    have ha2 : st.1.getD k false = false := by
      cases hb : st.1.getD k false
      · rfl
      · exact absurd hb ha
    have hknot : k ∉ st.2.flatten := fun hin => ha ((h2 k).mpr hin)
    have hinner := absorbFold_inv sim th k n st.2.flatten
      (List.range' (k + 1) (n - (k + 1))) ([k], st.1.set k true)
      (by
        intro x hx
        rcases List.mem_range'_1.mp hx with ⟨hx1, hx2⟩
        omega)
      (by
        refine ⟨by simpa using h1, ?_, List.nodup_singleton _, ?_, ?_, [], rfl, by simp⟩
        · intro j
          by_cases hj : j = k
          · subst hj
            rw [getD_set_self _ _ _ (by rw [h1]; exact hk)]
            simp
          · rw [getD_set_ne _ _ _ _ (fun he => hj he.symm), h2 j]
            simp [hj]
        · intro j hj
          rw [List.mem_singleton.mp hj]
          exact hknot
        · intro j hj
          rw [List.mem_singleton.mp hj]
          exact hk)
    set inner := (List.range' (k + 1) (n - (k + 1))).foldl (simAbsorb sim th k)
      ([k], st.1.set k true) with hinner_def
    obtain ⟨g1, g2, g3, g4, g5, gl, gshape, glcond⟩ := hinner
    refine ⟨g1, ?_, ?_, ?_, ?_, ?_⟩
    · intro j
      rw [g2 j]
      simp only [List.flatten_append, List.flatten_cons, List.flatten_nil,
        List.append_nil, List.mem_append]
    · rw [List.flatten_append]
      simp only [List.flatten_cons, List.flatten_nil, List.append_nil]
      exact List.nodup_append.mpr ⟨h3, g3, fun x hx => fun hx2 => g4 x hx2 hx⟩
    · intro j hj
      rw [List.flatten_append] at hj
      simp only [List.flatten_cons, List.flatten_nil, List.append_nil,
        List.mem_append] at hj
      rcases hj with h7 | h7
      · exact h4 j h7
      · exact g5 j h7
    · intro j hj
      rcases Nat.lt_succ_iff_lt_or_eq.mp hj with hj2 | hj2
      · rw [g2 j]
        exact Or.inl ((h2 j).mp (h5 j hj2))
      · rw [g2 j]
        right
        rw [hj2, gshape]
        exact List.mem_cons_self _ _
    · intro c hc
      rcases List.mem_append.mp hc with h7 | h7
      · exact h6 c h7
      · rw [List.mem_singleton.mp h7, gshape]
        exact ⟨k, gl, rfl, hk, glcond⟩

theorem clusterFold_inv (sim : Nat → Nat → ℚ) (th : ℚ) (n : Nat) :
    ∀ k, k ≤ n → ClusterInv sim th n k
      ((List.range k).foldl (clusterStep sim th n) (List.replicate n false, []))
  | 0, _ => by
    refine ⟨by simp, ?_, by simp, by simp, by simp, by simp⟩
    intro j
    simp [getD_replicate_false]
  | k + 1, hk => by
    rw [List.range_succ, List.foldl_append]
    exact clusterStep_inv sim th n k _ (by omega)
      (clusterFold_inv sim th n k (by omega))

theorem clusterFold_singleton (sim : Nat → Nat → ℚ) (th : ℚ) (n j : Nat)
    (hsym : ∀ a b, sim a b = sim b a)
    (hsim : ∀ i, i < n → i ≠ j → sim i j ≤ th) :
    ∀ k, k ≤ n →
    (j ∈ ((List.range k).foldl (clusterStep sim th n)
        (List.replicate n false, [])).2.flatten →
      [j] ∈ ((List.range k).foldl (clusterStep sim th n)
        (List.replicate n false, [])).2)
  | 0, _ => by simp
  | k + 1, hk => by
    rw [List.range_succ, List.foldl_append]
    intro hin
    have hprev := clusterFold_inv sim th n k (by omega)
    obtain ⟨h1, h2, h3, h4, h5, h6⟩ := hprev
    set st := (List.range k).foldl (clusterStep sim th n)
      (List.replicate n false, []) with hst
    simp only [List.foldl_cons, List.foldl_nil] at hin ⊢
    by_cases ha : st.1.getD k false = true
    · rw [clusterStep, if_pos ha] at hin ⊢
      exact clusterFold_singleton sim th n j hsym hsim k (by omega) hin
    · rw [clusterStep, if_neg ha] at hin ⊢
      simp only [List.flatten_append, List.flatten_cons, List.flatten_nil,
        List.append_nil, List.mem_append] at hin
      rcases hin with hin | hin
      · exact List.mem_append.mpr (Or.inl
          (clusterFold_singleton sim th n j hsym hsim k (by omega) hin))
      · by_cases hkj : k = j
        · subst hkj
          have heq : ((List.range' (k + 1) (n - (k + 1))).foldl (simAbsorb sim th k)
              ([k], st.1.set k true)).1 = [k] := by
            refine foldl_inv (simAbsorb sim th k) (fun p => p.1 = [k])
              (List.range' (k + 1) (n - (k + 1))) ([k], st.1.set k true) rfl ?_
            intro a x hx hP
            rcases List.mem_range'_1.mp hx with ⟨hx1, hx2⟩
            rw [simAbsorb]
            have hc : ¬ (a.2.getD x false = false ∧ th < sim k x) := by
              rintro ⟨_, hlt⟩
              rw [hsym k x] at hlt
              exact absurd hlt (not_lt.mpr (hsim x (by omega) (by omega)))
            rw [if_neg hc]
            exact hP
          exact List.mem_append.mpr (Or.inr (List.mem_singleton.mpr heq.symm))
        · have hnot : j ∉ ((List.range' (k + 1) (n - (k + 1))).foldl (simAbsorb sim th k)
              ([k], st.1.set k true)).1 := by
            refine foldl_inv (simAbsorb sim th k) (fun p => j ∉ p.1)
              (List.range' (k + 1) (n - (k + 1))) ([k], st.1.set k true)
              (by simp [Ne.symm hkj]) ?_
            intro a x hx hP
            rw [simAbsorb]
            by_cases hc : a.2.getD x false = false ∧ th < sim k x
            · rw [if_pos hc]
              have hxj : x ≠ j := by
                intro he
                rw [he] at hc
                exact absurd hc.2 (not_lt.mpr (hsim k (by omega) hkj))
              simp only [List.mem_append, List.mem_singleton]
              rintro (hj1 | hj1)
              · exact hP hj1
              · exact hxj hj1.symm
            · rw [if_neg hc]
              exact hP
          exact absurd hin hnot

/-- Claim C3: Greedy single-link clustering in original index order: every
cluster is its seed followed by strictly later indices whose similarity to the
seed strictly exceeds the threshold (so equality with the threshold never
clusters by that comparison), every index below `n` lands in exactly one
cluster, and — for a symmetric similarity — an index at most `threshold`-similar
to every other index remains a singleton. -/
theorem clustering_greedy_strict (n : Nat) (sim : Nat → Nat → ℚ) (th : ℚ)
    (hsym : ∀ i j, sim i j = sim j i) :
    (∀ c ∈ greedyClusters n sim th, ∃ s l, c = s :: l ∧ s < n
        ∧ ∀ j ∈ l, s < j ∧ j < n ∧ th < sim s j)
  ∧ (∀ j, j < n ↔ j ∈ (greedyClusters n sim th).flatten)
  ∧ (greedyClusters n sim th).flatten.Nodup
  ∧ (∀ c ∈ greedyClusters n sim th, ∀ s l, c = s :: l → ∀ j ∈ l, sim s j ≠ th)
  ∧ (∀ j, j < n → (∀ i, i < n → i ≠ j → sim i j ≤ th) →
      [j] ∈ greedyClusters n sim th) := by
  obtain ⟨h1, h2, h3, h4, h5, h6⟩ := clusterFold_inv sim th n n (le_refl n)
  have hiff : ∀ j, j < n ↔ j ∈ (greedyClusters n sim th).flatten := by
    intro j
    constructor
    · intro hj
      exact (h2 j).mp (h5 j hj)
    · intro hj
      exact h4 j hj
  refine ⟨h6, hiff, h3, ?_, ?_⟩
  · intro c hc s l hshape j hj heq
    obtain ⟨s2, l2, hshape2, _, hcond⟩ := h6 c hc
    rw [hshape] at hshape2
    obtain ⟨hs, hl⟩ := List.cons.inj hshape2
    subst hs
    subst hl
    have hlt := (hcond j hj).2.2
    rw [heq] at hlt
    exact absurd hlt (lt_irrefl th)
  · intro j hj hsim
    exact clusterFold_singleton sim th n j hsym hsim n (le_refl n) ((hiff j).mp hj)

theorem clustering_greedy_strict_witness :
    [2] ∈ greedyClusters 3 (fun i j => if i + j = 1 then mkRat 4 5 else 0) (mkRat 3 4)
  ∧ [0, 1] ∈ greedyClusters 3 (fun i j => if i + j = 1 then mkRat 4 5 else 0)
      (mkRat 3 4) := by
  constructor
  · exact (clustering_greedy_strict 3 (fun i j => if i + j = 1 then mkRat 4 5 else 0)
      (mkRat 3 4) (fun i j => by simp only []; rw [Nat.add_comm])).2.2.2.2 2 (by decide) (by decide)
  · decide

/-! ### Cluster master construction -/

theorem buildMaster_fields (items : List NewsItem)
    (ai : Option (String → List NewsItem → Option String)) (c : List Nat) :
    (buildMaster items ai c).item_id = (items.getD (c.headD 0) dummyItem).item_id
  ∧ (buildMaster items ai c).source = (items.getD (c.headD 0) dummyItem).source
  ∧ (buildMaster items ai c).title = (items.getD (c.headD 0) dummyItem).title
  ∧ (buildMaster items ai c).summary = (items.getD (c.headD 0) dummyItem).summary
  ∧ (buildMaster items ai c).link = (items.getD (c.headD 0) dummyItem).link
  ∧ (buildMaster items ai c).guid = (items.getD (c.headD 0) dummyItem).guid
  ∧ (buildMaster items ai c).image = (items.getD (c.headD 0) dummyItem).image
  ∧ (buildMaster items ai c).published = (items.getD (c.headD 0) dummyItem).published
  ∧ (buildMaster items ai c).sources
      = some (c.map (fun i => ((items.getD i dummyItem).source,
          (items.getD i dummyItem).link)))
  ∧ (buildMaster items ai c).cluster_count = some c.length := by
  cases ai with
  | none =>
    refine ⟨rfl, rfl, rfl, rfl, rfl, rfl, rfl, rfl, rfl, ?_⟩
    simp [buildMaster]
  | some f =>
    by_cases h : 1 < c.length
    · simp [buildMaster, h]
    · simp [buildMaster, h]

theorem item_id_getD_inj {items : List NewsItem}
    (hnd : (items.map NewsItem.item_id).Nodup) {i j : Nat}
    (hi : i < items.length) (hj : j < items.length)
    (h : (items.getD i dummyItem).item_id = (items.getD j dummyItem).item_id) :
    i = j := by
  rw [List.getD_eq_getElem items dummyItem hi,
    List.getD_eq_getElem items dummyItem hj] at h
  have hi2 : i < (items.map NewsItem.item_id).length := by simpa using hi
  have hj2 : j < (items.map NewsItem.item_id).length := by simpa using hj
  have h2 : (items.map NewsItem.item_id)[i] = (items.map NewsItem.item_id)[j] := by
    rw [List.getElem_map, List.getElem_map]
    exact h
  exact (hnd.getElem_inj_iff).mp h2

theorem mem_unique_of_pairwise_disjoint :
    ∀ (L : List (List Nat)) (c d : List Nat) (x : Nat), L.Pairwise List.Disjoint →
    c ∈ L → d ∈ L → x ∈ c → x ∈ d → c = d
  | [], _, _, _, _, hc, _, _, _ => absurd hc (by simp)
  | hd :: t, c, d, x, hp, hc, hdm, hxc, hxd => by
    have hp2 := List.pairwise_cons.mp hp
    rcases List.mem_cons.mp hc with h1 | h1 <;> rcases List.mem_cons.mp hdm with h2 | h2
    · rw [h1, h2]
    · subst h1
      exact absurd hxd (hp2.1 d h2 hxc)
    · subst h2
      exact absurd hxc (hp2.1 c h1 hxd)
    · exact mem_unique_of_pairwise_disjoint t c d x hp2.2 h1 h2 hxc hxd

/-- Claim C9: Over a partition with at least two items, every greedy cluster's
first (seed) index provides the master record: the master keeps the seed
item's fields, its `sources` lists every member's `(source, link)` pair
(itself included, at the head), its `cluster_count` is the member count, the
rewritten partition stores exactly that master under the seed's `item_id`,
and no non-seed member's `item_id` survives as a key.  A one-item partition
becomes its single item with `cluster_count = 1`, and an empty partition is
left untouched. -/
theorem clustering_master_output (part : List (String × NewsItem))
    (sim : Nat → Nat → ℚ) (th : ℚ)
    (ai : Option (String → List NewsItem → Option String))
    (hWF : WFpart part) :
    (¬ (part.map Prod.snd).length < 2 →
      ∀ c ∈ greedyClusters (part.map Prod.snd).length sim th,
        (∃ s l, c = s :: l)
        ∧ (buildMaster (part.map Prod.snd) ai c).item_id
            = ((part.map Prod.snd).getD (c.headD 0) dummyItem).item_id
        ∧ (buildMaster (part.map Prod.snd) ai c).title
            = ((part.map Prod.snd).getD (c.headD 0) dummyItem).title
        ∧ (buildMaster (part.map Prod.snd) ai c).sources
            = some (c.map (fun i => (((part.map Prod.snd).getD i dummyItem).source,
                ((part.map Prod.snd).getD i dummyItem).link)))
        ∧ (buildMaster (part.map Prod.snd) ai c).cluster_count = some c.length
        ∧ (clusterFile part sim th ai).lookup
              ((part.map Prod.snd).getD (c.headD 0) dummyItem).item_id
            = some (buildMaster (part.map Prod.snd) ai c)
        ∧ (∀ j ∈ c, j ≠ c.headD 0 →
            ((part.map Prod.snd).getD j dummyItem).item_id
              ∉ (clusterFile part sim th ai).map Prod.fst))
  ∧ (∀ it, part.map Prod.snd = [it] →
      clusterFile part sim th ai = [(it.item_id, setClusterCount it 1)])
  ∧ (part = [] → clusterFile part sim th ai = part) := by
  refine ⟨?_, ?_, ?_⟩
  · intro hlen c hc
    have hids : ((part.map Prod.snd).map NewsItem.item_id).Nodup :=
      WFpart_values_nodup hWF
    have hgc : ((List.range (part.map Prod.snd).length).foldl
        (clusterStep sim th (part.map Prod.snd).length)
        (List.replicate (part.map Prod.snd).length false, [])).2
        = greedyClusters (part.map Prod.snd).length sim th := rfl
    obtain ⟨_, _, hfl_nodup, _, _, h6⟩ := clusterFold_inv sim th
      (part.map Prod.snd).length (part.map Prod.snd).length (le_refl _)
    rw [hgc] at hfl_nodup h6
    have hdisj := (List.nodup_join.mp hfl_nodup).2
    -- pairwise distinct master ids
    have hpw : (greedyClusters (part.map Prod.snd).length sim th).Pairwise
        (fun c1 c2 => (buildMaster (part.map Prod.snd) ai c1).item_id
          ≠ (buildMaster (part.map Prod.snd) ai c2).item_id) := by
      refine hdisj.imp_of_mem ?_
      intro c1 c2 hm1 hm2 hdisj12 heq
      obtain ⟨s1, l1, hsh1, hb1, _⟩ := h6 c1 hm1
      obtain ⟨s2, l2, hsh2, hb2, _⟩ := h6 c2 hm2
      rw [(buildMaster_fields _ ai c1).1, (buildMaster_fields _ ai c2).1] at heq
      rw [hsh1, hsh2] at heq
      simp only [List.headD_cons] at heq
      have hseq : s1 = s2 := item_id_getD_inj hids hb1 hb2 heq
      have hs1m : s1 ∈ c1 := by
        rw [hsh1]
        exact List.mem_cons_self _ _
      have hs2m : s1 ∈ c2 := by
        rw [hsh2, hseq]
        exact List.mem_cons_self _ _
      exact hdisj12 hs1m hs2m
    have hm_nodup : (((greedyClusters (part.map Prod.snd).length sim th).map
        (buildMaster (part.map Prod.snd) ai)).map NewsItem.item_id).Nodup := by
      rw [List.map_map]
      exact List.Pairwise.map _ (fun a b h => h) hpw
    -- the final dict is the pairing map over the masters
    have hfold : (greedyClusters (part.map Prod.snd).length sim th).foldl
        (fun d c2 => insertAL d (buildMaster (part.map Prod.snd) ai c2).item_id
          (buildMaster (part.map Prod.snd) ai c2)) []
        = ((greedyClusters (part.map Prod.snd).length sim th).map
            (buildMaster (part.map Prod.snd) ai)).map (fun i => (i.item_id, i)) := by
      rw [← List.foldl_map (buildMaster (part.map Prod.snd) ai)
        (fun d i => insertAL d i.item_id i)]
      exact dictOfItems_eq_map hm_nodup
    have hWFfin : WFpart (((greedyClusters (part.map Prod.snd).length sim th).map
        (buildMaster (part.map Prod.snd) ai)).map (fun i => (i.item_id, i))) := by
      constructor
      · rw [List.map_map]
        exact hm_nodup
      · intro kv hkv
        rcases List.mem_map.mp hkv with ⟨m, _, hmk⟩
        rw [← hmk]
    have hne : ¬ part.map Prod.snd = [] := by
      intro h0
      rw [h0] at hlen
      exact hlen (by norm_num)
    have hfile : clusterFile part sim th ai
        = save_day (((greedyClusters (part.map Prod.snd).length sim th).map
            (buildMaster (part.map Prod.snd) ai)).map (fun i => (i.item_id, i))) := by
      simp only [clusterFile, if_neg hne, if_neg hlen]
      rw [hfold]
      rfl
    obtain ⟨s, l, hshape, hsb, hcond⟩ := h6 c hc
    refine ⟨⟨s, l, hshape⟩, (buildMaster_fields _ ai c).1,
      (buildMaster_fields _ ai c).2.2.1, (buildMaster_fields _ ai c).2.2.2.2.2.2.2.2.1,
      (buildMaster_fields _ ai c).2.2.2.2.2.2.2.2.2, ?_, ?_⟩
    · rw [hfile, lookup_save_day hWFfin]
      apply (lookup_eq_some_iff_mem hWFfin.1 _ _).mpr
      have hbm := List.mem_map_of_mem (fun (i : NewsItem) => (i.item_id, i))
        (List.mem_map_of_mem (buildMaster (part.map Prod.snd) ai) hc)
      have hbm2 : ((buildMaster (part.map Prod.snd) ai c).item_id,
          buildMaster (part.map Prod.snd) ai c)
          ∈ ((greedyClusters (part.map Prod.snd).length sim th).map
              (buildMaster (part.map Prod.snd) ai)).map (fun i => (i.item_id, i)) := hbm
      rw [(buildMaster_fields _ ai c).1] at hbm2
      exact hbm2
    · intro j hjc hjne hmem
      rw [hfile] at hmem
      have hmem2 := ((save_day_perm hWFfin).map Prod.fst).mem_iff.mp hmem
      rw [List.map_map, List.map_map] at hmem2
      rcases List.mem_map.mp hmem2 with ⟨c2, hc2, heq2⟩
      simp only [Function.comp_apply] at heq2
      obtain ⟨s2, l2, hsh2, hb2, _⟩ := h6 c2 hc2
      rw [(buildMaster_fields _ ai c2).1, hsh2] at heq2
      simp only [List.headD_cons] at heq2
      -- bounds for j
      have hjn : j < (part.map Prod.snd).length := by
        rw [hshape] at hjc
        rcases List.mem_cons.mp hjc with h1 | h1
        · rw [hshape] at hjne
          exact absurd h1 (by simpa using hjne)
        · exact (hcond j h1).2.1
      have hseq : s2 = j := item_id_getD_inj hids hb2 hjn heq2
      have hs2c2 : s2 ∈ c2 := by
        rw [hsh2]
        exact List.mem_cons_self _ _
      have hjc2 : j ∈ c2 := hseq ▸ hs2c2
      have hcc2 : c = c2 := mem_unique_of_pairwise_disjoint _ c c2 j hdisj hc hc2 hjc hjc2
      rw [← hcc2, hshape] at hsh2
      obtain ⟨hs2s, _⟩ := List.cons.inj hsh2
      rw [hshape] at hjne
      simp only [List.headD_cons] at hjne
      exact hjne (by rw [← hseq, ← hs2s])
  · intro it hit
    simp only [clusterFile, hit]
    norm_num
    rfl
  · intro h0
    simp [clusterFile, h0]

theorem clustering_master_output_witness :
    clusterFile [("a", ⟨"a", "s", "t", "x", "l", "g", none, "p", none, none, none⟩)]
        (fun _ _ => 0) (mkRat 3 4) none
      = [("a", setClusterCount
          ⟨"a", "s", "t", "x", "l", "g", none, "p", none, none, none⟩ 1)] :=
  (clustering_master_output
      [("a", ⟨"a", "s", "t", "x", "l", "g", none, "p", none, none, none⟩)]
      (fun _ _ => 0) (mkRat 3 4) none
      ⟨by decide, by
        intro kv h
        simp only [List.mem_singleton] at h
        rw [h]⟩).2.1
    ⟨"a", "s", "t", "x", "l", "g", none, "p", none, none, none⟩ (by decide)
